import Mathlib

/-!
# A verification development for an archetype-based ECS core

This file gives a shallow embedding, in Lean, of the core data model and
operations of an archetype-based entity-component-system runtime written in
Rust, and proves (or refutes) the specification claims about it.

Source files embedded (paths relative to the repository root):
* `src/archetype.rs`     — `Archetype`, `ArchetypeManager`
* `src/entity.rs`        — `EntityManager` (a generational slab from the
                           external `collections` crate)
* `src/world.rs`         — the `World` facade
* `src/component/storage.rs`  — `ComponentStorage`
* `src/component/tracking.rs` — `ChangeTracking`, `TrackingInfo`
* `src/query/filter.rs`  — `Filter`
* `src/query/query.rs`   — `Query` (cached archetype ids, sync)
* `src/query/iter.rs`    — `ComponentBundleIter`
* `src/query/bundle.rs`  — bundle fetch for `Tracked` and `Entity` specifiers
* `src/system/command.rs` — `FlagModifiedCommand`

Modelling conventions:
* Machine integers (`u32` entities and ticks, `usize` rows and ids) are
  modelled as `Nat`; none of the verified operations can overflow a `u32`/
  `usize` in a way the claims depend on.
* `BitSet` (the archetype id: the set of component ids present) is modelled
  as `Finset ℕ`.
* Rust code whose behaviour is a panic, a failed `debug_assert!`, or
  undefined behaviour (an `unsafe` precondition violated) is modelled by
  `Option`/`none`.
* Component values are type-erased bytes in the source; they are modelled by
  a single value type `Value := ℕ` (the claims never depend on the concrete
  component type).
-/

set_option maxHeartbeats 1000000

namespace Ecs

/-! ## Generic association-list helpers

`HashMap` / `SparseMap` from the source are modelled as association lists
with unique keys.  Lookup finds the first matching key; update rewrites the
value at the matching key in place; insertion prepends. -/

def assocGet {κ β : Type} [DecidableEq κ] (l : List (κ × β)) (k : κ) : Option β :=
  (l.find? (fun p => p.1 = k)).map Prod.snd

def assocSet {κ β : Type} [DecidableEq κ] (l : List (κ × β)) (k : κ) (v : β) :
    List (κ × β) :=
  l.map (fun p => if p.1 = k then (p.1, v) else p)

/-! ## `Vec::swap_remove`

Replaces the element at `i` with the last element and pops the last element.
Callers guarantee `i < l.length` (Rust panics otherwise). -/

def listSwapRemove {α : Type} (l : List α) (i : Nat) : List α :=
  match l with
  | [] => []
  | a :: l' => (((a :: l').set i ((a :: l').getLast (List.cons_ne_nil a l'))).dropLast)

/-! ## Data model

From `src/component/tracking.rs`, `src/component/storage.rs`,
`src/entity.rs`, `src/archetype.rs`, `src/world.rs`. -/

/-- An entity handle (`pub type Entity = u32`).  The `Store` slab of the
external `collections` crate hands out generational keys that are never
reused with the same generation; handles are therefore modelled as fresh
naturals. -/
abbrev Entity := Nat

/-- `pub type ComponentID = usize`: a dense sequential id. -/
abbrev ComponentID := Nat

/-- A component value.  The source stores type-erased bytes; the claims never
depend on the concrete component type, so one value type suffices. -/
abbrev Value := Nat

/-- `pub type ArchetypeID = BitSet`: the set of component ids present in the
archetype, modelled as a finite set of naturals. -/
abbrev ArchetypeID := Finset Nat

/-- `TrackingInfo { modified: u32 }` from `src/component/tracking.rs`. -/
structure TrackingInfo where
  modified : Nat
deriving DecidableEq

/-- `ChangeTracking { info, last_read, last_write }` from
`src/component/tracking.rs`. -/
structure ChangeTracking where
  info : List TrackingInfo
  last_read : Nat
  last_write : Nat
deriving DecidableEq

/-- `ComponentStorage { id, components, tracker }` from
`src/component/storage.rs`. -/
structure ComponentStorage where
  id : ComponentID
  components : List Value
  tracker : Option ChangeTracking
deriving DecidableEq

namespace ComponentStorage

/-- `ChangeTracking::with_len`: `info` is `vec![TrackingInfo::default(); len]`
(default `modified` is `0`), `last_read = last_write = 0`. -/
def trackingWithLen (len : Nat) : ChangeTracking :=
  { info := List.replicate len ⟨0⟩, last_read := 0, last_write := 0 }

/-- `ComponentStorage::enable_tracking`: create the tracker if absent. -/
def enableTracking (s : ComponentStorage) : ComponentStorage :=
  match s.tracker with
  | some _ => s
  | none => { s with tracker := some (trackingWithLen s.components.length) }

/-- `ComponentStorage::push`.  Note the source hard-codes
`let tick = 0;` (with a `TODO` saying the current world tick is needed), so
the tracking entry is pushed with `modified = 0` and `last_write` is set
to `0`, regardless of the world tick. -/
def push (s : ComponentStorage) (v : Value) : ComponentStorage :=
  match s.tracker with
  | none => { s with components := s.components ++ [v] }
  | some t =>
      { id := s.id
        components := s.components ++ [v]
        tracker := some { info := t.info ++ [⟨0⟩],
                          last_read := t.last_read,
                          last_write := 0 } }

/-- `ComponentStorage::delete` (swap-remove and drop at `index`).  The source
asserts `index < len`; `ChangeTracking::delete` does `info.swap_remove(index)`
which panics when out of bounds.  Panics are modelled by `none`. -/
def delete (s : ComponentStorage) (index : Nat) : Option ComponentStorage :=
  if index < s.components.length then
    match s.tracker with
    | none => some { s with components := listSwapRemove s.components index }
    | some t =>
        if index < t.info.length then
          some { id := s.id
                 components := listSwapRemove s.components index
                 tracker := some { t with info := listSwapRemove t.info index } }
        else none
  else none

/-- The destination half of `ComponentStorage::move_unchecked`: push the
moved value onto the destination column; when the destination is tracked,
push a tracking entry (with the source's hard-coded `let tick = 0;`) and set
`last_write` to `0`. -/
def moveFinish (s' dst : ComponentStorage) (v : Value) :
    Option (ComponentStorage × ComponentStorage) :=
  match dst.tracker with
  | none => some (s', { dst with components := dst.components ++ [v] })
  | some t =>
      some (s', { id := dst.id
                  components := dst.components ++ [v]
                  tracker := some { info := t.info ++ [⟨0⟩],
                                    last_read := t.last_read,
                                    last_write := 0 } })

/-- `ComponentStorage::move_component` / `move_unchecked` (called `transfer`
at its use sites): swap-remove the value at `src_index` from `s` (fixing the
source tracker) and hand the value to `moveFinish`. -/
def move (s : ComponentStorage) (srcIndex : Nat) (dst : ComponentStorage) :
    Option (ComponentStorage × ComponentStorage) :=
  if h : srcIndex < s.components.length then
    let v := s.components.get ⟨srcIndex, h⟩
    match s.tracker with
    | none =>
      moveFinish { s with components := listSwapRemove s.components srcIndex } dst v
    | some t =>
      if srcIndex < t.info.length then
        moveFinish { id := s.id
                     components := listSwapRemove s.components srcIndex
                     tracker := some { t with info := listSwapRemove t.info srcIndex } } dst v
      else none
  else none

end ComponentStorage

/-- `EntityRecord { archetype_id, archetype_row }` from `src/entity.rs`. -/
structure EntityRecord where
  archetype_id : ArchetypeID
  archetype_row : Nat
deriving DecidableEq

/-- The record table of `EntityManager` (a `Store<EntityRecord>`).  Modelled
from the spec (§4.5): a generational slab; a lookup succeeds exactly for live
entities. -/
abbrev Records := Nat → Option EntityRecord

/-- `Archetype` from `src/archetype.rs`: component-set id, graph edges keyed
by the added/removed component id, per-component storages (a `SparseMap`
keyed by the component id, which every storage also carries in its `id`
field), and the dense entity list. -/
structure Archetype where
  id : ArchetypeID
  edges : List (ComponentID × ArchetypeID)
  components : List ComponentStorage
  entities : List Entity

namespace Archetype

/-- `SparseMap::get` on `Archetype::components` (`get_storage`). -/
def getStorage (A : Archetype) (c : ComponentID) : Option ComponentStorage :=
  A.components.find? (fun s => s.id = c)

/-- In-place update of the storage keyed `c` (a `get_mut_storage` followed by
a mutation). -/
def setStorage (A : Archetype) (c : ComponentID) (s' : ComponentStorage) : Archetype :=
  { A with components := A.components.map (fun s => if s.id = c then s' else s) }

/-- `Archetype::comp_ids` (`SparseMap::keys`). -/
def compIds (A : Archetype) : List ComponentID :=
  A.components.map (fun s => s.id)

end Archetype

/-- The world state: `EntityManager` + `ArchetypeManager` + the registered
component count of `ComponentManager` + the world tick.  Component types are
identified with their dense sequential `ComponentID`s (`ComponentManager`
assigns `0, 1, 2, …` at registration); a type is registered iff its id is
below `numComps`. -/
structure World where
  entityNext : Nat
  records : Records
  table : List (ArchetypeID × Archetype)
  new_archetypes_queue : List ArchetypeID
  numComps : Nat
  tick : Nat

/-- `ArchetypeManager::new` + `World::new`: a world with only the root
archetype (empty component set), no entities, `n` registered components and
tick `0`. -/
def initWorld (n : Nat) : World :=
  { entityNext := 0
    records := fun _ => none
    table := [(∅, { id := ∅, edges := [], components := [], entities := [] })]
    new_archetypes_queue := []
    numComps := n
    tick := 0 }

/-- The `for storage in arche.components.values_mut()` loops: apply a
fallible mutation to every storage in order, failing if any fails. -/
def mapOption {A B : Type} (f : A -> Option B) : List A -> Option (List B)
  | [] => some []
  | a :: l =>
    match f a with
    | none => none
    | some b => (mapOption f l).map (fun bs => b :: bs)

namespace World

/-- `EntityManager::alive`. -/
def alive (w : World) (e : Entity) : Bool :=
  (w.records e).isSome

/-- `ComponentManager::get_id::<C>()`: returns the dense id of a registered
component type and panics otherwise.  Component types are identified with
their ids, so a type is registered iff its id is below `numComps`. -/
def getId (w : World) (c : Nat) : Option ComponentID :=
  if c < w.numComps then some c else none

/-- `World::create_entity`: push a fresh default record into the slab, then
`root.push_entity` writes `(root.id, root.entities.len())` into the record
and appends the entity to the root archetype's entity list.  The root lookup
is `unwrap_unchecked` (the root always exists). -/
def createEntity (w : World) : Option (World × Entity) :=
  let e := w.entityNext
  match assocGet w.table ∅ with
  | none => none
  | some root =>
    let newRec : EntityRecord := { archetype_id := root.id, archetype_row := root.entities.length }
    let root' : Archetype := { root with entities := root.entities ++ [e] }
    some ({ w with
              entityNext := e + 1
              records := fun e' => if e' = e then some newRec else w.records e'
              table := assocSet w.table ∅ root' },
          e)

/-- `Archetype::delete_entity` (src/archetype.rs:63-75): rewrite the record of
the entity currently in the last row to the deleted entity's row, then
swap-remove the deleted entity's row from `entities`.  Both record accesses
are unchecked (`none` when the entity is not alive), and `swap_remove`
panics when the row is out of bounds. -/
def archeDeleteEntity (A : Archetype) (e : Entity) (records : Records) :
    Option (Archetype × Records) :=
  match records e with
  | none => none
  | some r =>
    match A.entities.getLast? with
    | none => none
    | some last =>
      match records last with
      | none => none
      | some lastRec =>
        if r.archetype_row < A.entities.length then
          some ({ A with entities := listSwapRemove A.entities r.archetype_row },
                fun e' => if e' = last
                  then some { lastRec with archetype_row := r.archetype_row }
                  else records e')
        else none

/-- `Archetype::push_entity` (src/archetype.rs:52-59): set the record to
`(A.id, A.entities.len())` and append the entity. -/
def archePushEntity (A : Archetype) (e : Entity) (records : Records) :
    Option (Archetype × Records) :=
  match records e with
  | none => none
  | some _ =>
    some ({ A with entities := A.entities ++ [e] },
          fun e' => if e' = e
            then some { archetype_id := A.id, archetype_row := A.entities.length }
            else records e')

/-- `ArchetypeManager::delete_entity` (src/archetype.rs:267-282): swap-remove
every column at the entity's row, then `Archetype::delete_entity`. -/
def managerDeleteEntity (w : World) (e : Entity) : Option World :=
  match w.records e with
  | none => none
  | some r =>
    match assocGet w.table r.archetype_id with
    | none => none
    | some A =>
      match mapOption (fun s => s.delete r.archetype_row) A.components with
      | none => none
      | some comps =>
        match archeDeleteEntity { A with components := comps } e w.records with
        | none => none
        | some (A₂, recs) =>
          some { w with table := assocSet w.table r.archetype_id A₂, records := recs }

/-- `World::delete_entity`: silently return when the entity is not alive;
otherwise delete it from its archetype and free the slab slot. -/
def deleteEntity (w : World) (e : Entity) : Option World :=
  if w.alive e then
    match managerDeleteEntity w e with
    | none => none
    | some w' =>
      some { w' with records := fun e' => if e' = e then none else w'.records e' }
  else some w

/-- `World::has_component` (src/world.rs:84-94): `false` for a dead entity
(before the registration check); otherwise look the archetype up and test the
component bit.  `get_id` panics (`none`) for an unregistered type. -/
def hasComponent (w : World) (c : Nat) (e : Entity) : Option Bool :=
  match w.records e with
  | none => some false
  | some r =>
    match assocGet w.table r.archetype_id with
    | none => none
    | some A =>
      match w.getId c with
      | none => none
      | some cid => some (decide (cid ∈ A.id))

/-- `ArchetypeManager::insert_graph_edge` (src/archetype.rs:286-303): insert
the `comp_id`-labelled edge on both endpoints (`SparseMap::insert`
overwrites).  Both lookups are unchecked. -/
def insertGraphEdge (w : World) (src dst : ArchetypeID) (c : ComponentID) :
    Option World :=
  match assocGet w.table src with
  | none => none
  | some A =>
    let A' : Archetype := { A with edges := (c, dst) :: A.edges.filter (fun p => ¬ (p.1 = c)) }
    let t₁ := assocSet w.table src A'
    match assocGet t₁ dst with
    | none => none
    | some B =>
      let B' : Archetype := { B with edges := (c, src) :: B.edges.filter (fun p => ¬ (p.1 = c)) }
      some { w with table := assocSet t₁ dst B' }

/-- `ArchetypeManager::get_extended_archetype` (src/archetype.rs:418-463).
Follow the cached edge if present; otherwise compute the target set.  If an
archetype with that set exists, just install the edge; otherwise create the
archetype (its new component's storage first, then empty copies of the source
storages), queue it on `new_archetypes_queue`, insert it into the table and
install the edge. -/
def getExtendedArchetype (w : World) (src : ArchetypeID) (c : ComponentID) :
    Option (World × ArchetypeID) :=
  match assocGet w.table src with
  | none => none
  | some A =>
    match assocGet A.edges c with
    | some dst => some (w, dst)
    | none =>
      let target : ArchetypeID := insert c src
      if (assocGet w.table target).isSome then
        match insertGraphEdge w src target c with
        | none => none
        | some w₁ => some (w₁, target)
      else
        let dstA : Archetype :=
          { id := target
            edges := []
            components := { id := c, components := [], tracker := none } ::
              A.components.map (fun s => { id := s.id, components := [], tracker := none })
            entities := [] }
        let w₁ : World :=
          { w with new_archetypes_queue := w.new_archetypes_queue ++ [target]
                   table := (target, dstA) :: w.table }
        match insertGraphEdge w₁ src target c with
        | none => none
        | some w₂ => some (w₂, target)

/-- `ArchetypeManager::get_reduced_archetype` (src/archetype.rs:467-510):
symmetric to `getExtendedArchetype`; the removed component's storage is not
copied into the new archetype. -/
def getReducedArchetype (w : World) (src : ArchetypeID) (c : ComponentID) :
    Option (World × ArchetypeID) :=
  match assocGet w.table src with
  | none => none
  | some A =>
    match assocGet A.edges c with
    | some dst => some (w, dst)
    | none =>
      let target : ArchetypeID := src.erase c
      if (assocGet w.table target).isSome then
        match insertGraphEdge w src target c with
        | none => none
        | some w₁ => some (w₁, target)
      else
        let dstA : Archetype :=
          { id := target
            edges := []
            components := (A.components.filter (fun s => ¬ (s.id = c))).map
              (fun s => { id := s.id, components := [], tracker := none })
            entities := [] }
        let w₁ : World :=
          { w with new_archetypes_queue := w.new_archetypes_queue ++ [target]
                   table := (target, dstA) :: w.table }
        match insertGraphEdge w₁ src target c with
        | none => none
        | some w₂ => some (w₂, target)

/-- The loop inside `Archetype::transfer_entity`: for each component id,
`transfer_component` swap-removes the value at the entity's row from the
source storage and pushes it onto the destination storage (both storage
lookups unchecked). -/
def transferComponents (src dst : Archetype) (ids : List ComponentID) (row : Nat) :
    Option (Archetype × Archetype) :=
  match ids with
  | [] => some (src, dst)
  | c :: rest =>
    match src.getStorage c, dst.getStorage c with
    | some s, some d =>
      match s.move row d with
      | none => none
      | some (s', d') =>
        transferComponents (src.setStorage c s') (dst.setStorage c d') rest row
    | _, _ => none

/-- `Archetype::transfer_entity` (src/archetype.rs:139-160): transfer each
listed component's value, delete the entity from the source archetype and
push it onto the destination. -/
def transferEntity (src dst : Archetype) (e : Entity) (ids : List ComponentID)
    (records : Records) : Option (Archetype × Archetype × Records) :=
  match records e with
  | none => none
  | some r =>
    match transferComponents src dst ids r.archetype_row with
    | none => none
    | some (src₁, dst₁) =>
      match archeDeleteEntity src₁ e records with
      | none => none
      | some (src₂, recs₁) =>
        match archePushEntity dst₁ e recs₁ with
        | none => none
        | some (dst₂, recs₂) => some (src₂, dst₂, recs₂)

/-- `World::add_component` (src/world.rs:100-114) on top of
`ArchetypeManager::add_component` (src/archetype.rs:310-359): return early
when `has_component` already holds; otherwise find or create the extended
archetype, push the value onto its new column, and transfer the entity
carrying all component ids of the source archetype.  `get_two_mut_unchecked`
requires the two archetype keys to be distinct. -/
def addComponent (w : World) (c : Nat) (e : Entity) (v : Value) : Option World :=
  match w.hasComponent c e with
  | none => none
  | some true => some w
  | some false =>
    match w.getId c with
    | none => none
    | some cid =>
      match w.records e with
      | none => none
      | some r =>
        match w.getExtendedArchetype r.archetype_id cid with
        | none => none
        | some (w₁, dstId) =>
          if r.archetype_id = dstId then none
          else
            match assocGet w₁.table r.archetype_id, assocGet w₁.table dstId with
            | some src, some dst =>
              match dst.getStorage cid with
              | none => none
              | some dstStore =>
                let dst₁ := dst.setStorage cid (dstStore.push v)
                match transferEntity src dst₁ e src.compIds w₁.records with
                | none => none
                | some (src₂, dst₂, recs) =>
                  some { w₁ with
                           records := recs
                           table := assocSet (assocSet w₁.table r.archetype_id src₂) dstId dst₂ }
            | _, _ => none

/-- `World::remove_component` (src/world.rs:120-133) on top of
`ArchetypeManager::remove_component` (src/archetype.rs:366-414): return early
when `has_component` fails; otherwise find or create the reduced archetype,
swap-remove-drop the removed component at the entity's row, and transfer the
entity carrying all component ids of the destination archetype. -/
def removeComponent (w : World) (c : Nat) (e : Entity) : Option World :=
  match w.hasComponent c e with
  | none => none
  | some false => some w
  | some true =>
    match w.getId c with
    | none => none
    | some cid =>
      match w.records e with
      | none => none
      | some r =>
        match w.getReducedArchetype r.archetype_id cid with
        | none => none
        | some (w₁, dstId) =>
          if r.archetype_id = dstId then none
          else
            match assocGet w₁.table r.archetype_id, assocGet w₁.table dstId with
            | some src, some dst =>
              match src.getStorage cid with
              | none => none
              | some s =>
                match s.delete r.archetype_row with
                | none => none
                | some s' =>
                  let src₁ := src.setStorage cid s'
                  match transferEntity src₁ dst e dst.compIds w₁.records with
                  | none => none
                  | some (src₂, dst₂, recs) =>
                    some { w₁ with
                             records := recs
                             table := assocSet (assocSet w₁.table r.archetype_id src₂) dstId dst₂ }
            | _, _ => none

/-- `FlagModifiedCommand::execute` (src/system/command.rs:198-214): all
lookups are unchecked; `debug_assert!(storage.is_tracked())` followed by
`unwrap_unchecked` means an untracked column is a panic in debug builds and
undefined behaviour in release builds (`none` here); otherwise set the row's
`modified` tick and the tracker's `last_write` to the current world tick. -/
def flagModified (w : World) (c : Nat) (e : Entity) : Option World :=
  match w.getId c with
  | none => none
  | some cid =>
    match w.records e with
    | none => none
    | some r =>
      match assocGet w.table r.archetype_id with
      | none => none
      | some A =>
        match A.getStorage cid with
        | none => none
        | some s =>
          match s.tracker with
          | none => none
          | some t =>
            if r.archetype_row < t.info.length then
              let t' : ChangeTracking :=
                { t with info := t.info.set r.archetype_row ⟨w.tick⟩, last_write := w.tick }
              let A' : Archetype := A.setStorage cid { s with tracker := some t' }
              some { w with table := assocSet w.table r.archetype_id A' }
            else none

end World

/-- The structural operations of claim C1: `create_entity`, `delete_entity`,
`add_component`, `remove_component`. -/
inductive Op : Type
  | create : Op
  | delete : Entity → Op
  | add : Nat → Entity → Value → Op
  | remove : Nat → Entity → Op

/-- One structural operation against the world. -/
def stepOp (w : World) : Op → Option World
  | .create => (w.createEntity).map Prod.fst
  | .delete e => w.deleteEntity e
  | .add c e v => w.addComponent c e v
  | .remove c e => w.removeComponent c e

/-- Run a sequence of structural operations; `none` as soon as one panics. -/
def runOps (w : World) (ops : List Op) : Option World :=
  ops.foldlM stepOp w

/-! ## Filter, query, iteration (src/query/) -/

/-- `Filter` from `src/query/filter.rs`: the `and`/`not`/`track` id lists and
the compiled `and`/`not` bitsets. -/
structure Filter where
  and : List ComponentID
  not : List ComponentID
  track : List ComponentID
  and_bitset : ArchetypeID
  not_bitset : ArchetypeID

/-- `FilterBuilder::build`: the bitsets are the unions of the id lists. -/
def buildFilter (andL notL trackL : List ComponentID) : Filter :=
  { and := andL
    not := notL
    track := trackL
    and_bitset := andL.foldl (fun s c => insert c s) ∅
    not_bitset := notL.foldl (fun s c => insert c s) ∅ }

namespace Filter

/-- The match test of `Filter::matches_archetype` (src/query/filter.rs:79-80):
`archetype.id.contains(&self.and_bitset) && archetype.id.contains_none(&self.not_bitset)`.
`BitSet::contains` holds when every bit of the argument is set (superset);
`BitSet::contains_none` holds when no bit is shared (disjoint). -/
def matchTest (f : Filter) (A : Archetype) : Bool :=
  decide (f.and_bitset ⊆ A.id) && decide (Disjoint A.id f.not_bitset)

/-- The tracking-enabling loop of `Filter::matches_archetype`
(src/query/filter.rs:83-87): `get_mut_storage` is unchecked, so a tracked
component id absent from the archetype is undefined behaviour (`none`). -/
def enableAll (A : Archetype) : List ComponentID → Option Archetype
  | [] => some A
  | c :: rest =>
    match A.getStorage c with
    | none => none
    | some s => enableAll (A.setStorage c s.enableTracking) rest

/-- `Filter::matches_archetype` (src/query/filter.rs:78-90): run the match
test; on a match, enable tracking on every storage named in `track`. -/
def matchesArchetype (f : Filter) (A : Archetype) : Option (Bool × Archetype) :=
  if f.matchTest A then
    match enableAll A f.track with
    | none => none
    | some A' => some (true, A')
  else some (false, A)

/-- `Filter::matching_archetypes` (src/query/filter.rs:92-103): scan every
archetype in the table (mutating it through `matches_archetype`) and collect
the ids of those that match. -/
def matchingAux (f : Filter) :
    List (ArchetypeID × Archetype) → Option (List ArchetypeID × List (ArchetypeID × Archetype))
  | [] => some ([], [])
  | (k, A) :: rest =>
    match f.matchesArchetype A with
    | none => none
    | some (b, A') =>
      match matchingAux f rest with
      | none => none
      | some (ids, rest') =>
        some ((if b then A'.id :: ids else ids), (k, A') :: rest')

end Filter

/-- `Query` from `src/query/query.rs` (the component-bundle part relevant to
the claims): the compiled filter and the cached matching archetype ids. -/
structure Query where
  filter : Filter
  archetype_ids : List ArchetypeID

/-- `Query::new` (src/query/query.rs:116-133): compile the filter and cache
`filter.matching_archetypes(...)`. -/
def Query.build (f : Filter) (w : World) : Option (Query × World) :=
  match Filter.matchingAux f w.table with
  | none => none
  | some (ids, table') =>
    some ({ filter := f, archetype_ids := ids }, { w with table := table' })

/-- The loop of `Query::update_archetype_ids` (src/query/query.rs:152-163):
for each id in the new-archetype queue, test the filter (the table lookup is
unchecked) and append matches to the cached list. -/
def Query.updateIdsAux (f : Filter) :
    List ArchetypeID → List (ArchetypeID × Archetype) → List ArchetypeID →
    Option (List ArchetypeID × List (ArchetypeID × Archetype))
  | [], table, ids => some (ids, table)
  | a :: rest, table, ids =>
    match assocGet table a with
    | none => none
    | some A =>
      match f.matchesArchetype A with
      | none => none
      | some (b, A') =>
        Query.updateIdsAux f rest (assocSet table a A') (if b then ids ++ [A'.id] else ids)

/-- `Query::update_archetype_ids` (src/query/query.rs:152-163) applied to a
world. -/
def Query.updateArchetypeIds (q : Query) (w : World) : Option (Query × World) :=
  match Query.updateIdsAux q.filter w.new_archetypes_queue w.table q.archetype_ids with
  | none => none
  | some (ids, table') =>
    some ({ q with archetype_ids := ids }, { w with table := table' })

/-- The loop body of `Query::update_storage_trackers`
(src/query/query.rs:165-178): for every cached archetype id and every tracked
component id, set the storage tracker's `last_read` to the world tick.  All
lookups (archetype, storage, tracker) are unchecked. -/
def Query.updateTrackersAux (track : List ComponentID) (tick : Nat) :
    List ArchetypeID → List (ArchetypeID × Archetype) →
    Option (List (ArchetypeID × Archetype))
  | [], table => some table
  | a :: rest, table =>
    match assocGet table a with
    | none => none
    | some A =>
      let step := fun (oA : Option Archetype) (c : ComponentID) =>
        match oA with
        | none => none
        | some A =>
          match A.getStorage c with
          | none => none
          | some s =>
            match s.tracker with
            | none => none
            | some t =>
              some (A.setStorage c { s with tracker := some { t with last_read := tick } })
      match track.foldl step (some A) with
      | none => none
      | some A' => Query.updateTrackersAux track tick rest (assocSet table a A')

/-- `Query::sync` (src/query/query.rs:147-150): absorb the new-archetype
queue into the cached list, then bump `last_read` on every tracked column of
every cached archetype. -/
def Query.sync (q : Query) (w : World) : Option (Query × World) :=
  match q.updateArchetypeIds w with
  | none => none
  | some (q', w') =>
    match Query.updateTrackersAux q'.filter.track w'.tick q'.archetype_ids w'.table with
    | none => none
    | some table' => some (q', { w' with table := table' })

/-! ## Bundle fetch and iteration -/

/-- `Tracked<T>` from `src/query/filter.rs`. -/
inductive Tracked (α : Type) : Type
  | Modified : α → Tracked α
  | Unmodified : α → Tracked α
deriving DecidableEq

/-- `Tracked::is_modified`. -/
def Tracked.is_modified {α : Type} : Tracked α → Bool
  | .Modified _ => true
  | .Unmodified _ => false

/-- `<Tracked<&'static T> as ComponentBundle>::fetch_item`
(src/query/bundle.rs:184-197): the tracker unwrap is unchecked, the info and
value reads are unchecked indexing; the item is `Modified` iff
`item_info.modified >= tracker.last_read`. -/
def fetchTrackedRead (s : ComponentStorage) (index : Nat) : Option (Tracked Value) :=
  match s.tracker with
  | none => none
  | some t =>
    match t.info.get? index, s.components.get? index with
    | some info, some v =>
      some (if info.modified ≥ t.last_read then .Modified v else .Unmodified v)
    | _, _ => none

/-- `<Tracked<&'static mut T> as ComponentBundle>::fetch_item`
(src/query/bundle.rs:219-232): identical logic for the write specifier. -/
def fetchTrackedWrite (s : ComponentStorage) (index : Nat) : Option (Tracked Value) :=
  match s.tracker with
  | none => none
  | some t =>
    match t.info.get? index, s.components.get? index with
    | some info, some v =>
      some (if info.modified ≥ t.last_read then .Modified v else .Unmodified v)
    | _, _ => none

/-- One chunk of `ComponentBundleIter` for the `Entity` specifier
(src/query/iter.rs:91-104 with src/query/bundle.rs:279-305): the chunk length
is `archetype.entities.len()` and `fetch_item` reads `entities[index]`. -/
def chunkItems (A : Archetype) : List Entity :=
  (List.range A.entities.length).map (fun i => A.entities.getD i 0)

/-- `ComponentBundleIter::next` (src/query/iter.rs:43-72) for the `Entity`
specifier: the concatenation of the chunks of the cached archetypes, in
order.  The archetype lookup is unchecked. -/
def bundleIterEntities (w : World) : List ArchetypeID → Option (List Entity)
  | [] => some []
  | a :: rest =>
    match assocGet w.table a with
    | none => none
    | some A => (bundleIterEntities w rest).map (fun items => chunkItems A ++ items)

/-! ## The world invariant

I1/I2/I3/I4/I5/I6 from the specification, phrased over the model.  It is
established for `initWorld` and preserved by every structural operation. -/

/-- I2/I6 for one storage: the column and its tracking info (when present)
have the archetype's entity count as length. -/
def storageWF (s : ComponentStorage) (n : Nat) : Prop :=
  s.components.length = n ∧ ∀ t, s.tracker = some t → t.info.length = n

/-- The per-archetype part of the invariant (relative to a world `w` whose
records and table it refers to):
* the stored `id` equals the table key;
* storage keys are unique and are exactly the elements of the id bitset;
* every column is in lockstep with the entity list (I2, I6);
* every listed entity is alive and its record points back at this archetype
  and row (I1 one direction);
* graph edges point at existing archetypes whose set differs by exactly the
  edge's component bit (I3). -/
def archeWF (w : World) (k : ArchetypeID) (A : Archetype) : Prop :=
  A.id = k ∧
  (A.components.map (fun s => s.id)).Nodup ∧
  (∀ c ∈ k, ∃ s ∈ A.components, s.id = c) ∧
  (∀ s ∈ A.components, s.id ∈ k) ∧
  (∀ s ∈ A.components, storageWF s A.entities.length) ∧
  (∀ i, i < A.entities.length → w.records (A.entities.getD i 0) = some ⟨k, i⟩) ∧
  (∀ p ∈ A.edges, (assocGet w.table p.2).isSome ∧
      p.2 = (if p.1 ∈ k then k.erase p.1 else insert p.1 k))

/-- The world invariant:
* every live record names an existing archetype holding that entity at that
  row (I1), and every live entity's handle is below the slab's high-water
  mark (freshness of new handles);
* table keys are unique (I5), the root archetype exists (I4), and every
  table entry satisfies `archeWF`. -/
def WF (w : World) : Prop :=
  (∀ e r, w.records e = some r → e < w.entityNext ∧
      ∃ A, assocGet w.table r.archetype_id = some A ∧
        A.entities.get? r.archetype_row = some e) ∧
  (w.table.map Prod.fst).Nodup ∧
  (assocGet w.table ∅).isSome ∧
  (∀ p ∈ w.table, archeWF w p.1 p.2)

/-! ## Concrete runs used to exercise the theorems -/

/-- The world reached by running `ops` from a fresh world with `n`
registered component types (the run is total on these inputs). -/
def worldAfter (n : Nat) (ops : List Op) : World :=
  (runOps (initWorld n) ops).getD (initWorld n)

/-- One registered component, one entity created. -/
def w1create : World := worldAfter 1 [Op.create]

/-- One registered component, one entity created and given component `0`. -/
def w1add : World := worldAfter 1 [Op.create, Op.add 0 0 42]

/-- No registered components, one entity created. -/
def w0create : World := worldAfter 0 [Op.create]

/-- One registered component, an entity holding component `0` and a second
bare entity. -/
def w3 : World := worldAfter 1 [Op.create, Op.add 0 0 5, Op.create]

/-- The cached archetype-id list of a query built after component `0` was
first added (so after archetype `{0}` was created and queued) and then
synced before the new-archetype queue is cleared. -/
def c7ids : Option (List ArchetypeID) :=
  match Query.build (buildFilter [0] [] []) w1add with
  | none => none
  | some (q, w') =>
    match q.sync w' with
    | none => none
    | some (q', _) => some q'.archetype_ids

/-! ## Association-list and swap-remove lemmas -/

theorem assocGet_nil {κ β : Type} [DecidableEq κ] (k : κ) :
    assocGet ([] : List (κ × β)) k = none := rfl

theorem assocGet_cons {κ β : Type} [DecidableEq κ] (p : κ × β) (l : List (κ × β)) (k : κ) :
    assocGet (p :: l) k = if p.1 = k then some p.2 else assocGet l k := by
  by_cases h : p.1 = k <;> simp [assocGet, List.find?_cons, h]

theorem assocSet_cons {κ β : Type} [DecidableEq κ] (p : κ × β) (l : List (κ × β))
    (k : κ) (v : β) :
    assocSet (p :: l) k v = (if p.1 = k then (p.1, v) else p) :: assocSet l k v := rfl

theorem assocGet_set {κ β : Type} [DecidableEq κ] (l : List (κ × β)) (k k' : κ) (v : β) :
    assocGet (assocSet l k v) k' =
      if k' = k then (assocGet l k).map (fun _ => v) else assocGet l k' := by
  induction l with
  | nil => by_cases h : k' = k <;> simp [assocGet, assocSet, h]
  | cons p l ih =>
    rw [assocSet_cons]
    by_cases hp : p.1 = k
    · rw [if_pos hp]
      by_cases hk : k' = k
      · have hpk : p.1 = k' := by rw [hp, hk]
        simp [assocGet_cons, hp, hpk, hk]
      · have hpk : ¬ p.1 = k' := by rw [hp]; exact fun h => hk h.symm
        simp [assocGet_cons, hpk, hk, ih]
    · rw [if_neg hp]
      by_cases hk : k' = k
      · subst hk
        simp [assocGet_cons, hp, ih]
      · by_cases hpk : p.1 = k'
        · simp [assocGet_cons, hpk, hk]
        · simp [assocGet_cons, hpk, hk, ih]

theorem assocSet_keys {κ β : Type} [DecidableEq κ] (l : List (κ × β)) (k : κ) (v : β) :
    (assocSet l k v).map Prod.fst = l.map Prod.fst := by
  induction l with
  | nil => rfl
  | cons p l ih =>
    rw [assocSet_cons, List.map_cons, List.map_cons, ih]
    by_cases hp : p.1 = k
    · rw [if_pos hp]
    · rw [if_neg hp]

theorem assocGet_isSome_set {κ β : Type} [DecidableEq κ] (l : List (κ × β)) (k k' : κ) (v : β) :
    (assocGet (assocSet l k v) k').isSome = (assocGet l k').isSome := by
  rw [assocGet_set]
  by_cases h : k' = k
  · subst h; cases assocGet l k' <;> simp
  · simp [h]

theorem mem_assocSet {κ β : Type} [DecidableEq κ] {l : List (κ × β)} {k : κ} {v : β}
    {p : κ × β} (h : p ∈ assocSet l k v) :
    (p.1 = k ∧ p.2 = v) ∨ (p ∈ l ∧ p.1 ≠ k) := by
  induction l with
  | nil => simp [assocSet] at h
  | cons q l ih =>
    rw [assocSet_cons] at h
    rcases List.mem_cons.mp h with h | h
    · by_cases hq : q.1 = k
      · rw [if_pos hq] at h
        subst h
        exact Or.inl ⟨hq, rfl⟩
      · rw [if_neg hq] at h
        subst h
        exact Or.inr ⟨List.mem_cons_self _ _, hq⟩
    · rcases ih h with h' | h'
      · exact Or.inl h'
      · exact Or.inr ⟨List.mem_cons_of_mem _ h'.1, h'.2⟩

theorem assocGet_eq_some_of_mem {κ β : Type} [DecidableEq κ] {l : List (κ × β)}
    {k : κ} {v : β} (hmem : (k, v) ∈ l) (hnd : (l.map Prod.fst).Nodup) :
    assocGet l k = some v := by
  induction l with
  | nil => simp at hmem
  | cons p l ih =>
    simp only [List.mem_cons] at hmem
    simp only [List.map_cons, List.nodup_cons] at hnd
    rcases hmem with h | h
    · subst h
      simp [assocGet_cons]
    · have hne : p.1 ≠ k := by
        intro hk
        exact hnd.1 (by
          rw [hk]
          exact List.mem_map_of_mem Prod.fst h)
      rw [assocGet_cons, if_neg hne]
      exact ih h hnd.2

theorem mem_of_assocGet_eq_some {κ β : Type} [DecidableEq κ] {l : List (κ × β)}
    {k : κ} {v : β} (h : assocGet l k = some v) : (k, v) ∈ l := by
  induction l with
  | nil => simp [assocGet] at h
  | cons p l ih =>
    rw [assocGet_cons] at h
    by_cases hp : p.1 = k
    · rw [if_pos hp] at h
      have hv : v = p.2 := by
        injection h with h'
        exact h'.symm
      have hpe : p = (k, v) := by
        cases p
        simp only [Prod.mk.injEq]
        exact ⟨hp, hv.symm⟩
      rw [← hpe]
      exact List.mem_cons_self _ _
    · rw [if_neg hp] at h
      exact List.mem_cons_of_mem _ (ih h)

theorem listSwapRemove_length {α : Type} (l : List α) (i : Nat) (h : i < l.length) :
    (listSwapRemove l i).length = l.length - 1 := by
  cases l with
  | nil => simp at h
  | cons a l => simp [listSwapRemove]

theorem listSwapRemove_get? {α : Type} (l : List α) (i j : Nat)
    (hi : i < l.length) (hj : j < l.length - 1) :
    (listSwapRemove l i).get? j =
      if j = i then l.get? (l.length - 1) else l.get? j := by
  cases l with
  | nil => simp at hj
  | cons a l =>
    show (((a :: l).set i ((a :: l).getLast (List.cons_ne_nil a l))).dropLast).get? j = _
    rw [List.dropLast_eq_take, List.length_set]
    rw [List.get?_eq_getElem?, List.getElem?_take_of_lt (by omega), ← List.get?_eq_getElem?]
    rw [List.get?_set_of_lt' _ _ hi]
    by_cases hij : j = i
    · rw [if_pos hij, if_pos hij.symm]
      rw [List.getLast_eq_getElem]
      rw [List.get?_eq_getElem?,
        List.getElem?_eq_getElem (by omega : (a :: l).length - 1 < (a :: l).length)]
    · rw [if_neg hij, if_neg (fun h => hij h.symm)]

theorem mem_listSwapRemove {α : Type} {l : List α} {i : Nat} {x : α}
    (h : x ∈ listSwapRemove l i) : x ∈ l := by
  cases l with
  | nil => simp [listSwapRemove] at h
  | cons a l =>
    have h' : x ∈ (a :: l).set i ((a :: l).getLast (List.cons_ne_nil a l)) :=
      (List.dropLast_sublist _).mem h
    rcases List.mem_or_eq_of_mem_set h' with h'' | h''
    · exact h''
    · rw [h'']
      exact List.getLast_mem _

theorem initWorld_WF (n : Nat) : WF (initWorld n) := by
  refine ⟨?_, ?_, ?_, ?_⟩
  · intro e r h
    simp [initWorld] at h
  · simp [initWorld]
  · simp [initWorld, assocGet_cons]
  · intro p hp
    simp [initWorld] at hp
    subst hp
    refine ⟨rfl, by simp, by simp, by simp, by simp, ?_, by simp⟩
    intro i hi
    simp at hi

theorem WF.lookup {w : World} (hw : WF w) {k : ArchetypeID} {A : Archetype}
    (h : assocGet w.table k = some A) : archeWF w k A :=
  hw.2.2.2 (k, A) (mem_of_assocGet_eq_some h)

/-- A live record's row is within bounds of its archetype's entity list, and
the entity sits there. -/
theorem WF.record_loc {w : World} (hw : WF w) {e : Entity} {r : EntityRecord}
    (h : w.records e = some r) :
    ∃ A, assocGet w.table r.archetype_id = some A ∧
      r.archetype_row < A.entities.length ∧
      A.entities.getD r.archetype_row 0 = e := by
  obtain ⟨-, A, hA, hget⟩ := hw.1 e r h
  refine ⟨A, hA, ?_, ?_⟩
  · exact List.get?_eq_some.mp hget |>.choose
  · have hlt := List.get?_eq_some.mp hget
    obtain ⟨hlt, hval⟩ := hlt
    rw [List.getD_eq_get _ _ hlt]
    exact hval

/-- Two live entities recorded at the same archetype and row are equal. -/
theorem WF.record_inj {w : World} (hw : WF w) {e₁ e₂ : Entity}
    {r₁ r₂ : EntityRecord} (h₁ : w.records e₁ = some r₁) (h₂ : w.records e₂ = some r₂)
    (haid : r₁.archetype_id = r₂.archetype_id) (hrow : r₁.archetype_row = r₂.archetype_row) :
    e₁ = e₂ := by
  obtain ⟨-, A₁, hA₁, hg₁⟩ := hw.1 e₁ r₁ h₁
  obtain ⟨-, A₂, hA₂, hg₂⟩ := hw.1 e₂ r₂ h₂
  rw [haid] at hA₁
  rw [hA₁] at hA₂
  injection hA₂ with hA
  subst hA
  rw [hrow] at hg₁
  rw [hg₁] at hg₂
  injection hg₂

/-- An entity listed in an archetype of a well-formed world is alive, hence
below the slab's high-water mark. -/
theorem WF.entity_lt {w : World} (hw : WF w) {k : ArchetypeID} {A : Archetype}
    (hA : assocGet w.table k = some A) {i : Nat} (hi : i < A.entities.length) :
    A.entities.getD i 0 < w.entityNext :=
  (hw.1 _ _ ((hw.lookup hA).2.2.2.2.2.1 i hi)).1

theorem getD_append_lt {α : Type} (l l₂ : List α) (i : Nat) (d : α)
    (h : i < l.length) : (l ++ l₂).getD i d = l.getD i d := by
  rw [List.getD_eq_getElem?_getD, List.getD_eq_getElem?_getD]
  rw [List.getElem?_append, if_pos h]

theorem getD_concat_self {α : Type} (l : List α) (a d : α) :
    (l ++ [a]).getD l.length d = a := by
  rw [List.getD_eq_getElem?_getD]
  rw [List.getElem?_concat_length]
  rfl

/-- `World::create_entity` preserves the invariant. -/
theorem createEntity_WF {w : World} (hw : WF w) {w' : World} {e : Entity}
    (h : w.createEntity = some (w', e)) : WF w' := by
  unfold World.createEntity at h
  cases hroot : assocGet w.table ∅ with
  | none => rw [hroot] at h; exact absurd h (by simp)
  | some root =>
    rw [hroot] at h
    simp only [Option.some.injEq, Prod.mk.injEq] at h
    obtain ⟨hw', he⟩ := h
    subst hw'
    subst he
    obtain ⟨hid, hnd, hcov, hmemk, hlen, hent, hedg⟩ := hw.lookup hroot
    refine ⟨?_, ?_, ?_, ?_⟩
    · intro e' r' hr'
      simp only at hr'
      by_cases he' : e' = w.entityNext
      · rw [if_pos he'] at hr'
        injection hr' with hr'
        subst hr'
        refine ⟨by show e' < w.entityNext + 1; omega, ?_⟩
        refine ⟨{ root with entities := root.entities ++ [w.entityNext] }, ?_, ?_⟩
        · simp only [hid]
          rw [assocGet_set, if_pos rfl, hroot]
          rfl
        · simp only
          rw [he', List.get?_concat_length]
      · rw [if_neg he'] at hr'
        obtain ⟨hlt, A, hA, hget⟩ := hw.1 e' r' hr'
        refine ⟨by show e' < w.entityNext + 1; omega, ?_⟩
        by_cases haid : r'.archetype_id = ∅
        · rw [haid] at hA
          rw [hA] at hroot
          injection hroot with hroot'
          refine ⟨{ root with entities := root.entities ++ [w.entityNext] }, ?_, ?_⟩
          · simp only [haid]
            rw [assocGet_set, if_pos rfl, hA]
            rfl
          · simp only
            have hrow : r'.archetype_row < A.entities.length :=
              (List.get?_eq_some.mp hget).1
            rw [← hroot']
            rw [List.get?_append hrow]
            exact hget
        · refine ⟨A, ?_, hget⟩
          simp only
          rw [assocGet_set, if_neg haid]
          exact hA
    · simp only
      rw [assocSet_keys]
      exact hw.2.1
    · simp only
      rw [assocGet_set]
      simp only [if_pos rfl, hroot]
      rfl
    · intro p hp
      simp only at hp
      rcases mem_assocSet hp with ⟨hp1, hp2⟩ | ⟨hpmem, hp1⟩
      · -- the updated root archetype
        obtain ⟨k, A⟩ := p
        simp only at hp1 hp2
        subst hp1
        subst hp2
        refine ⟨hid, hnd, hcov, hmemk, ?_, ?_, ?_⟩
        · intro s hs
          exact absurd (hmemk s hs) (Finset.not_mem_empty _)
        · intro i hi
          simp only [List.length_append, List.length_singleton] at hi
          by_cases hil : i < root.entities.length
          · have hlt := hw.entity_lt hroot hil
            have hne : ¬ (root.entities.getD i 0 = w.entityNext) := Nat.ne_of_lt hlt
            simp only [getD_append_lt _ _ _ _ hil, if_neg hne]
            exact hent i hil
          · have hieq : i = root.entities.length := by omega
            subst hieq
            simp only [getD_concat_self, if_pos, hid]
        · intro q hq
          obtain ⟨hso, heq⟩ := hedg q hq
          constructor
          · simp only
            rw [assocGet_isSome_set]
            exact hso
          · exact heq
      · -- an untouched archetype
        obtain ⟨hid', hnd', hcov', hmemk', hlen', hent', hedg'⟩ := hw.2.2.2 p hpmem
        refine ⟨hid', hnd', hcov', hmemk', hlen', ?_, ?_⟩
        · intro i hi
          have hA : assocGet w.table p.1 = some p.2 :=
            assocGet_eq_some_of_mem hpmem hw.2.1
          have hlt := hw.entity_lt hA hi
          have hne : ¬ (p.2.entities.getD i 0 = w.entityNext) := Nat.ne_of_lt hlt
          simp only [if_neg hne]
          exact hent' i hi
        · intro q hq
          obtain ⟨hso, heq⟩ := hedg' q hq
          constructor
          · simp only
            rw [assocGet_isSome_set]
            exact hso
          · exact heq

/-! ## Storage- and list-level lemmas used by the preservation proofs -/

theorem get?_eq_some_getD {α : Type} {l : List α} {i : Nat} (d : α) (h : i < l.length) :
    l.get? i = some (l.getD i d) := by
  rw [List.getD_eq_getElem?_getD, List.get?_eq_getElem?]
  rw [List.getElem?_eq_getElem h]
  rfl

theorem listSwapRemove_getD {α : Type} (l : List α) (i j : Nat) (d : α)
    (hi : i < l.length) (hj : j < l.length - 1) :
    (listSwapRemove l i).getD j d = if j = i then l.getD (l.length - 1) d else l.getD j d := by
  have h₁ : (listSwapRemove l i).get? j = some ((listSwapRemove l i).getD j d) :=
    get?_eq_some_getD d (by rw [listSwapRemove_length l i hi]; exact hj)
  rw [listSwapRemove_get? l i j hi hj] at h₁
  by_cases hij : j = i
  · rw [if_pos hij] at h₁
    rw [if_pos hij]
    rw [get?_eq_some_getD d (by omega)] at h₁
    injection h₁ with h₁
    exact h₁.symm
  · rw [if_neg hij] at h₁
    rw [if_neg hij]
    rw [get?_eq_some_getD d (by omega)] at h₁
    injection h₁ with h₁
    exact h₁.symm

theorem getLast?_eq_some_getD {α : Type} {l : List α} (h : 0 < l.length) (d : α) :
    l.getLast? = some (l.getD (l.length - 1) d) := by
  cases l with
  | nil => simp at h
  | cons a l =>
    rw [List.getLast?_eq_getLast _ (List.cons_ne_nil a l)]
    rw [List.getLast_eq_getElem]
    rw [List.getD_eq_getElem?_getD, List.getElem?_eq_getElem (by omega)]
    rfl

namespace ComponentStorage

theorem delete_spec {s : ComponentStorage} {n : Nat} (hs : storageWF s n)
    {i : Nat} (hi : i < n) :
    ∃ s', s.delete i = some s' ∧ s'.id = s.id ∧ storageWF s' (n - 1) := by
  obtain ⟨hlen, htrk⟩ := hs
  unfold delete
  rw [if_pos (by omega)]
  cases htr : s.tracker with
  | none =>
    refine ⟨_, rfl, rfl, ?_, ?_⟩
    · simp only
      rw [listSwapRemove_length _ _ (by omega), hlen]
    · intro t ht
      simp only [htr] at ht
      exact absurd ht (by simp)
  | some t =>
    have hti : t.info.length = n := htrk t htr
    simp only []
    rw [if_pos (by omega : i < t.info.length)]
    refine ⟨_, rfl, rfl, ?_, ?_⟩
    · simp only
      rw [listSwapRemove_length _ _ (by omega), hlen]
    · intro t' ht'
      simp only at ht'
      injection ht' with ht'
      rw [← ht']
      simp only
      rw [listSwapRemove_length _ _ (by omega), hti]

theorem moveFinish_spec {u dst : ComponentStorage} {m : Nat}
    (hd : storageWF dst m) (v : Value) :
    ∃ d', moveFinish u dst v = some (u, d') ∧ d'.id = dst.id ∧ storageWF d' (m + 1) := by
  obtain ⟨hdlen, hdtrk⟩ := hd
  unfold moveFinish
  cases hdtr : dst.tracker with
  | none =>
    refine ⟨_, rfl, rfl, ?_, ?_⟩
    · simp only [List.length_append, hdlen]
      rfl
    · intro t ht
      simp only [hdtr] at ht
      exact absurd ht (by simp)
  | some td =>
    refine ⟨_, rfl, rfl, ?_, ?_⟩
    · simp only [List.length_append, hdlen]
      rfl
    · intro t ht
      simp only at ht
      injection ht with ht
      rw [← ht]
      simp only [List.length_append, hdtrk td hdtr]
      rfl

theorem move_spec {s d : ComponentStorage} {n m : Nat}
    (hs : storageWF s n) (hd : storageWF d m) {i : Nat} (hi : i < n) :
    ∃ s' d', s.move i d = some (s', d') ∧ s'.id = s.id ∧ d'.id = d.id ∧
      storageWF s' (n - 1) ∧ storageWF d' (m + 1) := by
  obtain ⟨hlen, htrk⟩ := hs
  unfold move
  rw [dif_pos (by omega : i < s.components.length)]
  cases htr : s.tracker with
  | none =>
    simp only []
    have hsWF : storageWF
        { id := s.id, components := listSwapRemove s.components i, tracker := none } (n - 1) := by
      constructor
      · simp only
        rw [listSwapRemove_length _ _ (by omega), hlen]
      · intro t ht
        simp only at ht
        exact absurd ht (by simp)
    obtain ⟨d', hfin, hdid, hdWF⟩ := moveFinish_spec (u :=
      { id := s.id, components := listSwapRemove s.components i, tracker := none }) hd
      (s.components.get ⟨i, by omega⟩)
    exact ⟨_, d', hfin, rfl, hdid, hsWF, hdWF⟩
  | some t =>
    have hti : t.info.length = n := htrk t htr
    simp only []
    rw [if_pos (by omega : i < t.info.length)]
    have hsWF : storageWF
        { id := s.id
          components := listSwapRemove s.components i
          tracker := some { t with info := listSwapRemove t.info i } } (n - 1) := by
      constructor
      · simp only
        rw [listSwapRemove_length _ _ (by omega), hlen]
      · intro t' ht'
        simp only at ht'
        injection ht' with ht'
        rw [← ht']
        simp only
        rw [listSwapRemove_length _ _ (by omega), hti]
    obtain ⟨d', hfin, hdid, hdWF⟩ := moveFinish_spec (u :=
      { id := s.id
        components := listSwapRemove s.components i
        tracker := some { t with info := listSwapRemove t.info i } }) hd
      (s.components.get ⟨i, by omega⟩)
    exact ⟨_, d', hfin, rfl, hdid, hsWF, hdWF⟩

theorem push_id (s : ComponentStorage) (v : Value) : (s.push v).id = s.id := by
  unfold push
  cases s.tracker <;> rfl

theorem push_storageWF {s : ComponentStorage} {n : Nat} (hs : storageWF s n) (v : Value) :
    storageWF (s.push v) (n + 1) := by
  obtain ⟨hlen, htrk⟩ := hs
  unfold push
  cases htr : s.tracker with
  | none =>
    refine ⟨?_, ?_⟩
    · simp only [List.length_append, hlen]
      rfl
    · intro t ht
      simp only [htr] at ht
      exact absurd ht (by simp)
  | some t =>
    refine ⟨?_, ?_⟩
    · simp only [List.length_append, hlen]
      rfl
    · intro t' ht'
      simp only at ht'
      injection ht' with ht'
      rw [← ht']
      simp only [List.length_append, htrk t htr]
      rfl

end ComponentStorage

/-! ## Archetype-level lemmas -/

theorem keyedSet_find?_self (l : List ComponentStorage) (c : ComponentID)
    (s' : ComponentStorage) (hs' : s'.id = c)
    (hex : (l.find? (fun s => s.id = c)).isSome = true) :
    (l.map (fun s => if s.id = c then s' else s)).find? (fun s => s.id = c) = some s' := by
  induction l with
  | nil => simp at hex
  | cons x l ih =>
    by_cases hx : x.id = c
    · simp only [List.map_cons, if_pos hx]
      rw [List.find?_cons_of_pos _ (by simpa using hs')]
    · simp only [List.map_cons, if_neg hx]
      rw [List.find?_cons_of_neg _ (by simpa using hx)]
      rw [List.find?_cons_of_neg _ (by simpa using hx)] at hex
      exact ih hex

theorem keyedSet_find?_ne (l : List ComponentStorage) (c c' : ComponentID)
    (hne : ¬ c' = c) (s' : ComponentStorage) (hs' : s'.id = c) :
    (l.map (fun s => if s.id = c then s' else s)).find? (fun s => s.id = c') =
      l.find? (fun s => s.id = c') := by
  induction l with
  | nil => rfl
  | cons x l ih =>
    by_cases hx : x.id = c
    · simp only [List.map_cons, if_pos hx]
      rw [List.find?_cons_of_neg _ (by simp [hs']; exact fun h => hne h.symm)]
      rw [List.find?_cons_of_neg _ (by simp [hx]; exact fun h => hne h.symm)]
      exact ih
    · simp only [List.map_cons, if_neg hx]
      rw [List.find?_cons]
      rw [List.find?_cons]
      cases hxc : (x.id = c' : Bool)
      · simp only [hxc]
        exact ih
      · simp only [hxc]

namespace Archetype

theorem getStorage_mem {A : Archetype} {c : ComponentID} {s : ComponentStorage}
    (h : A.getStorage c = some s) : s ∈ A.components ∧ s.id = c := by
  unfold getStorage at h
  refine ⟨List.mem_of_find?_eq_some h, ?_⟩
  have := List.find?_some h
  simpa using this

theorem getStorage_isSome {A : Archetype} {c : ComponentID}
    (h : ∃ s ∈ A.components, s.id = c) : (A.getStorage c).isSome = true := by
  unfold getStorage
  rw [List.find?_isSome]
  obtain ⟨s, hs, hid⟩ := h
  exact ⟨s, hs, by simpa using hid⟩

theorem setStorage_compIds {A : Archetype} {c : ComponentID} {s' : ComponentStorage}
    (hs' : s'.id = c) :
    (A.setStorage c s').components.map (fun s => s.id) =
      A.components.map (fun s => s.id) := by
  show (A.components.map _).map _ = _
  rw [List.map_map]
  apply List.map_congr_left
  intro x _
  by_cases hx : x.id = c
  · simp [Function.comp, hx, hs']
  · simp [Function.comp, hx]

theorem mem_setStorage {A : Archetype} {c : ComponentID} {s' t : ComponentStorage}
    (h : t ∈ (A.setStorage c s').components) :
    t = s' ∨ (t ∈ A.components ∧ ¬ t.id = c) := by
  obtain ⟨x, hx, hxt⟩ := List.mem_map.mp h
  by_cases hxc : x.id = c
  · rw [if_pos hxc] at hxt
    exact Or.inl hxt.symm
  · rw [if_neg hxc] at hxt
    subst hxt
    exact Or.inr ⟨hx, hxc⟩

theorem getStorage_setStorage_self {A : Archetype} {c : ComponentID}
    {s' : ComponentStorage} (hs' : s'.id = c) (hex : (A.getStorage c).isSome = true) :
    (A.setStorage c s').getStorage c = some s' :=
  keyedSet_find?_self A.components c s' hs' hex

theorem getStorage_setStorage_ne {A : Archetype} {c c' : ComponentID}
    {s' : ComponentStorage} (hne : ¬ c' = c) (hs' : s'.id = c) :
    (A.setStorage c s').getStorage c' = A.getStorage c' :=
  keyedSet_find?_ne A.components c c' hne s' hs'

end Archetype

/-- Deleting a row from every storage of a lockstep column family succeeds and
keeps the family in lockstep one element shorter. -/
theorem mapOption_delete {comps : List ComponentStorage} {n : Nat}
    (h : ∀ s ∈ comps, storageWF s n) {i : Nat} (hi : i < n) :
    ∃ comps', mapOption (fun s => s.delete i) comps = some comps' ∧
      comps'.map (fun s => s.id) = comps.map (fun s => s.id) ∧
      ∀ s' ∈ comps', storageWF s' (n - 1) := by
  induction comps with
  | nil => exact ⟨[], rfl, rfl, by simp⟩
  | cons s l ih =>
    obtain ⟨s', hdel, hsid, hsWF⟩ :=
      ComponentStorage.delete_spec (h s (List.mem_cons_self _ _)) hi
    obtain ⟨l', hl, hlids, hlWF⟩ := ih (fun t ht => h t (List.mem_cons_of_mem _ ht))
    refine ⟨s' :: l', ?_, ?_, ?_⟩
    · unfold mapOption
      rw [hdel, hl]
      rfl
    · simp [hsid, hlids]
    · intro t ht
      rcases List.mem_cons.mp ht with h' | h'
      · rw [h']; exact hsWF
      · exact hlWF t h'

/-- `Archetype::delete_entity`, computed: requires the entity alive, the row
in bounds and the last row's entity alive. -/
theorem archeDeleteEntity_spec {A : Archetype} {e : Entity} {records : Records}
    {r lastRec : EntityRecord} (hrec : records e = some r)
    (hrow : r.archetype_row < A.entities.length)
    (hlast : records (A.entities.getD (A.entities.length - 1) 0) = some lastRec) :
    World.archeDeleteEntity A e records = some
      ({ A with entities := listSwapRemove A.entities r.archetype_row },
       fun e' => if e' = A.entities.getD (A.entities.length - 1) 0
         then some { lastRec with archetype_row := r.archetype_row }
         else records e') := by
  unfold World.archeDeleteEntity
  rw [hrec]
  rw [getLast?_eq_some_getD (by omega) 0]
  simp only []
  rw [hlast]
  simp only []
  rw [if_pos hrow]

/-- `Archetype::push_entity`, computed. -/
theorem archePushEntity_spec {A : Archetype} {e : Entity} {R : Records}
    {r : EntityRecord} (hrec : R e = some r) :
    World.archePushEntity A e R = some
      ({ A with entities := A.entities ++ [e] },
       fun e' => if e' = e
         then some { archetype_id := A.id, archetype_row := A.entities.length }
         else R e') := by
  unfold World.archePushEntity
  rw [hrec]

theorem records_functional {w : World} {e : Entity} {r₁ r₂ : EntityRecord}
    (h₁ : w.records e = some r₁) (h₂ : w.records e = some r₂) : r₁ = r₂ :=
  Option.some.inj (h₁.symm.trans h₂)

/-- The entity listed at row `i` of archetype `k` differs from a live entity
whose record does not name `(k, i)`. -/
theorem WF.ent_ne {w : World} (hw : WF w) {k : ArchetypeID} {A : Archetype}
    (hA : assocGet w.table k = some A) {i : Nat} (hi : i < A.entities.length)
    {e : Entity} {r : EntityRecord} (hrec : w.records e = some r)
    (hne : ¬ (k = r.archetype_id ∧ i = r.archetype_row)) :
    ¬ (A.entities.getD i 0 = e) := by
  intro heq
  have hx := (hw.lookup hA).2.2.2.2.2.1 i hi
  rw [heq] at hx
  have := records_functional hrec hx
  exact hne ⟨congrArg EntityRecord.archetype_id this.symm,
             congrArg EntityRecord.archetype_row this.symm⟩

/-- `World::delete_entity` preserves the invariant. -/
theorem deleteEntity_WF {w : World} (hw : WF w) {e : Entity} {w' : World}
    (h : w.deleteEntity e = some w') : WF w' := by
  unfold World.deleteEntity at h
  by_cases halive : w.alive e = true
  · rw [if_pos halive] at h
    obtain ⟨r, hrec⟩ := Option.isSome_iff_exists.mp halive
    unfold World.managerDeleteEntity at h
    rw [hrec] at h
    simp only [] at h
    obtain ⟨A, hA, hrow, hback⟩ := hw.record_loc hrec
    rw [hA] at h
    simp only [] at h
    obtain ⟨hid, hnd, hcov, hmemk, hlen, hent, hedg⟩ := hw.lookup hA
    obtain ⟨comps', hmapo, hids, hWFc⟩ := mapOption_delete hlen hrow
    rw [hmapo] at h
    simp only [] at h
    have hlast : w.records (A.entities.getD (A.entities.length - 1) 0) =
        some ⟨r.archetype_id, A.entities.length - 1⟩ :=
      hent (A.entities.length - 1) (by omega)
    rw [archeDeleteEntity_spec (A := { A with components := comps' }) hrec hrow hlast] at h
    simp only [] at h
    injection h with h
    rw [← h]
    clear h
    set A₂ : Archetype :=
      { id := A.id, edges := A.edges, components := comps',
        entities := listSwapRemove A.entities r.archetype_row } with hA₂
    have hlast_lt : A.entities.getD (A.entities.length - 1) 0 < w.entityNext :=
      (hw.1 _ _ hlast).1
    have hA₂len : A₂.entities.length = A.entities.length - 1 :=
      listSwapRemove_length _ _ (by omega)
    have htblself : ∀ B : Archetype,
        assocGet (assocSet w.table r.archetype_id B) r.archetype_id = some B := by
      intro B
      rw [assocGet_set, if_pos rfl, hA]
      rfl
    refine ⟨?_, ?_, ?_, ?_⟩
    · -- records clause
      intro e' r' hr'
      simp only at hr'
      by_cases he' : e' = e
      · rw [if_pos he'] at hr'
        exact absurd hr' (by simp)
      · rw [if_neg he'] at hr'
        by_cases hel : e' = A.entities.getD (A.entities.length - 1) 0
        · rw [if_pos hel] at hr'
          injection hr' with hr'
          have hrow_ne : r.archetype_row ≠ A.entities.length - 1 := by
            intro hcon
            apply he'
            rw [hel, ← hcon]
            exact hback
          refine ⟨by rw [hel]; exact hlast_lt, A₂, ?_, ?_⟩
          · rw [← hr']
            exact htblself A₂
          · rw [← hr']
            show (listSwapRemove A.entities r.archetype_row).get? r.archetype_row = some e'
            rw [listSwapRemove_get? _ _ _ hrow (by omega)]
            rw [if_pos rfl]
            rw [hel]
            exact get?_eq_some_getD 0 (by omega)
        · rw [if_neg hel] at hr'
          obtain ⟨hlt', A'', hA'', hget''⟩ := hw.1 e' r' hr'
          refine ⟨hlt', ?_⟩
          by_cases haid : r'.archetype_id = r.archetype_id
          · rw [haid] at hA''
            have hAeq : A'' = A := Option.some.inj (hA''.symm.trans hA)
            rw [hAeq] at hget''
            refine ⟨A₂, by rw [haid]; exact htblself A₂, ?_⟩
            have hr'row : r'.archetype_row < A.entities.length :=
              (List.get?_eq_some.mp hget'').1
            have hrne : r'.archetype_row ≠ r.archetype_row := by
              intro hcon
              exact he' (hw.record_inj hr' hrec haid hcon)
            have hrne2 : r'.archetype_row ≠ A.entities.length - 1 := by
              intro hcon
              apply hel
              rw [← hcon]
              rw [get?_eq_some_getD 0 hr'row] at hget''
              injection hget'' with hget''
              exact hget''.symm
            show (listSwapRemove A.entities r.archetype_row).get? r'.archetype_row = some e'
            rw [listSwapRemove_get? _ _ _ hrow (by omega)]
            rw [if_neg hrne]
            exact hget''
          · refine ⟨A'', ?_, hget''⟩
            simp only
            rw [assocGet_set, if_neg haid]
            exact hA''
    · simp only
      rw [assocSet_keys]
      exact hw.2.1
    · simp only
      rw [assocGet_isSome_set]
      exact hw.2.2.1
    · intro p hp
      simp only at hp
      rcases mem_assocSet hp with ⟨hp1, hp2⟩ | ⟨hpmem, hp1⟩
      · obtain ⟨pk, pA⟩ := p
        simp only at hp1 hp2
        subst hp1
        subst hp2
        refine ⟨hid, ?_, ?_, ?_, ?_, ?_, ?_⟩
        · show (comps'.map (fun s => s.id)).Nodup
          rw [hids]
          exact hnd
        · intro c hc
          obtain ⟨s, hs, hsid⟩ := hcov c hc
          have hcm : c ∈ comps'.map (fun s => s.id) := by
            rw [hids]
            exact List.mem_map.mpr ⟨s, hs, hsid⟩
          obtain ⟨s', hs', hsid'⟩ := List.mem_map.mp hcm
          exact ⟨s', hs', hsid'⟩
        · intro s' hs'
          have hsm : s'.id ∈ A.components.map (fun s => s.id) := by
            rw [← hids]
            exact List.mem_map_of_mem _ hs'
          obtain ⟨s, hs, hsid⟩ := List.mem_map.mp hsm
          rw [← hsid]
          exact hmemk s hs
        · intro s' hs'
          rw [hA₂len]
          exact hWFc s' hs'
        · intro i hi
          rw [hA₂len] at hi
          show (fun e' => if e' = e then none
              else if e' = A.entities.getD (A.entities.length - 1) 0
                then some ⟨r.archetype_id, r.archetype_row⟩
                else w.records e')
            ((listSwapRemove A.entities r.archetype_row).getD i 0) =
            some ⟨r.archetype_id, i⟩
          simp only
          rw [listSwapRemove_getD _ _ _ _ (by omega) (by omega)]
          by_cases hirow : i = r.archetype_row
          · rw [if_pos hirow]
            have hlast_ne_e : ¬ (A.entities.getD (A.entities.length - 1) 0 = e) := by
              intro hcon
              have hfun := records_functional (hcon ▸ hlast) hrec
              have hrr := congrArg EntityRecord.archetype_row hfun
              simp only at hrr
              omega
            rw [if_neg hlast_ne_e, if_pos rfl, hirow]
          · rw [if_neg hirow]
            have hei := hent i (by omega)
            have hne_e : ¬ (A.entities.getD i 0 = e) :=
              hw.ent_ne hA (by omega) hrec (fun hcon => hirow hcon.2)
            have hne_last : ¬ (A.entities.getD i 0 =
                A.entities.getD (A.entities.length - 1) 0) := by
              intro hcon
              have hfun := records_functional (hcon ▸ hei) hlast
              have hrr := congrArg EntityRecord.archetype_row hfun
              simp only at hrr
              omega
            rw [if_neg hne_e, if_neg hne_last]
            exact hei
        · intro q hq
          obtain ⟨hso, heq⟩ := hedg q hq
          refine ⟨?_, heq⟩
          simp only
          rw [assocGet_isSome_set]
          exact hso
      · obtain ⟨hid', hnd', hcov', hmemk', hlen', hent', hedg'⟩ := hw.2.2.2 p hpmem
        have hAp : assocGet w.table p.1 = some p.2 :=
          assocGet_eq_some_of_mem hpmem hw.2.1
        refine ⟨hid', hnd', hcov', hmemk', hlen', ?_, ?_⟩
        · intro i hi
          have hei := hent' i hi
          have hne_e : ¬ (p.2.entities.getD i 0 = e) :=
            hw.ent_ne hAp hi hrec (fun hcon => hp1 hcon.1)
          have hne_last : ¬ (p.2.entities.getD i 0 =
              A.entities.getD (A.entities.length - 1) 0) := by
            intro hcon
            have hfun := records_functional (hcon ▸ hei) hlast
            have haa := congrArg EntityRecord.archetype_id hfun
            simp only at haa
            exact hp1 haa
          show (fun e' => if e' = e then none
              else if e' = A.entities.getD (A.entities.length - 1) 0
                then some ⟨r.archetype_id, r.archetype_row⟩
                else w.records e') (p.2.entities.getD i 0) = some ⟨p.1, i⟩
          simp only
          rw [if_neg hne_e, if_neg hne_last]
          exact hei
        · intro q hq
          obtain ⟨hso, heq⟩ := hedg' q hq
          refine ⟨?_, heq⟩
          simp only
          rw [assocGet_isSome_set]
          exact hso
  · rw [if_neg halive] at h
    injection h with h
    rw [← h]
    exact hw

theorem assocGet_isSome_iff_mem_keys {κ β : Type} [DecidableEq κ]
    {l : List (κ × β)} {k : κ} :
    (assocGet l k).isSome = true ↔ k ∈ l.map Prod.fst := by
  induction l with
  | nil => simp [assocGet]
  | cons p l ih =>
    rw [assocGet_cons]
    by_cases hp : p.1 = k
    · simp [hp]
    · simp only [if_neg hp, List.map_cons, List.mem_cons]
      rw [ih]
      constructor
      · exact Or.inr
      · intro h
        rcases h with h | h
        · exact absurd h.symm hp
        · exact h

theorem assocGet_cons_isSome_mono {κ β : Type} [DecidableEq κ]
    {l : List (κ × β)} {k : κ} (p : κ × β) (h : (assocGet l k).isSome = true) :
    (assocGet (p :: l) k).isSome = true := by
  rw [assocGet_cons]
  by_cases hp : p.1 = k
  · rw [if_pos hp]; rfl
  · rw [if_neg hp]; exact h

theorem find?_id_eq_of_mem_nodup {l : List ComponentStorage}
    (hnd : (l.map (fun s => s.id)).Nodup) {s : ComponentStorage} (hs : s ∈ l) :
    l.find? (fun t => t.id = s.id) = some s := by
  induction l with
  | nil => simp at hs
  | cons x l ih =>
    simp only [List.map_cons, List.nodup_cons] at hnd
    rcases List.mem_cons.mp hs with h | h
    · subst h
      rw [List.find?_cons_of_pos _ (by simp)]
    · have hx : ¬ (x.id = s.id) := by
        intro hcon
        exact hnd.1 (by rw [hcon]; exact List.mem_map_of_mem _ h)
      rw [List.find?_cons_of_neg _ (by simpa using hx)]
      exact ih hnd.2 h

/-- `insert_graph_edge`, computed, for distinct existing endpoints. -/
theorem insertGraphEdge_eq {w : World} {src dst : ArchetypeID} {A B : Archetype}
    (hA : assocGet w.table src = some A) (hB : assocGet w.table dst = some B)
    (hne : ¬ dst = src) (c : ComponentID) :
    w.insertGraphEdge src dst c = some
      { w with table := (assocSet
          (assocSet w.table src
            { A with edges := (c, dst) :: A.edges.filter (fun p => ¬ (p.1 = c)) })
          dst
          { B with edges := (c, src) :: B.edges.filter (fun p => ¬ (p.1 = c)) }) } := by
  unfold World.insertGraphEdge
  rw [hA]
  simp only []
  rw [assocGet_set, if_neg hne, hB]

/-- `insert_graph_edge` preserves the invariant when the edge relates two
existing archetypes whose sets differ by exactly the bit `c`. -/
theorem insertGraphEdge_WF {w : World} (hw : WF w) {src dst : ArchetypeID}
    {A B : Archetype} (hA : assocGet w.table src = some A)
    (hB : assocGet w.table dst = some B) (hne : ¬ dst = src) {c : ComponentID}
    (hto : dst = (if c ∈ src then src.erase c else insert c src))
    (hfrom : src = (if c ∈ dst then dst.erase c else insert c dst)) :
    WF { w with table := (assocSet
          (assocSet w.table src
            { A with edges := (c, dst) :: A.edges.filter (fun p => ¬ (p.1 = c)) })
          dst
          { B with edges := (c, src) :: B.edges.filter (fun p => ¬ (p.1 = c)) }) } := by
  obtain ⟨hidA, hndA, hcovA, hmemkA, hlenA, hentA, hedgA⟩ := hw.lookup hA
  obtain ⟨hidB, hndB, hcovB, hmemkB, hlenB, hentB, hedgB⟩ := hw.lookup hB
  have hlook : ∀ k : ArchetypeID, assocGet
      (assocSet (assocSet w.table src
        { A with edges := (c, dst) :: A.edges.filter (fun p => ¬ (p.1 = c)) }) dst
        { B with edges := (c, src) :: B.edges.filter (fun p => ¬ (p.1 = c)) }) k =
      (if k = dst then some { B with edges := (c, src) :: B.edges.filter (fun p => ¬ (p.1 = c)) }
       else if k = src then some { A with edges := (c, dst) :: A.edges.filter (fun p => ¬ (p.1 = c)) }
       else assocGet w.table k) := by
    intro k
    by_cases hk : k = dst
    · rw [if_pos hk]
      subst hk
      rw [assocGet_set, if_pos rfl, assocGet_set, if_neg hne, hB]
      rfl
    · rw [if_neg hk, assocGet_set, if_neg hk]
      by_cases hk' : k = src
      · subst hk'
        rw [if_pos rfl, assocGet_set, if_pos rfl, hA]
        rfl
      · rw [if_neg hk', assocGet_set, if_neg hk']
  have hisSome : ∀ k : ArchetypeID, (assocGet w.table k).isSome = true →
      (assocGet (assocSet (assocSet w.table src
        { A with edges := (c, dst) :: A.edges.filter (fun p => ¬ (p.1 = c)) }) dst
        { B with edges := (c, src) :: B.edges.filter (fun p => ¬ (p.1 = c)) }) k).isSome
        = true := by
    intro k h
    rw [assocGet_isSome_set, assocGet_isSome_set]
    exact h
  refine ⟨?_, ?_, ?_, ?_⟩
  · intro e' r' hr'
    obtain ⟨hlt, A'', hA'', hget⟩ := hw.1 e' r' hr'
    refine ⟨hlt, ?_⟩
    rw [hlook]
    by_cases hk : r'.archetype_id = dst
    · rw [if_pos hk]
      rw [hk] at hA''
      have : A'' = B := Option.some.inj (hA''.symm.trans hB)
      rw [this] at hget
      exact ⟨_, rfl, hget⟩
    · rw [if_neg hk]
      by_cases hk' : r'.archetype_id = src
      · rw [if_pos hk']
        rw [hk'] at hA''
        have : A'' = A := Option.some.inj (hA''.symm.trans hA)
        rw [this] at hget
        exact ⟨_, rfl, hget⟩
      · rw [if_neg hk']
        exact ⟨A'', hA'', hget⟩
  · show ((assocSet (assocSet w.table src _) dst _).map Prod.fst).Nodup
    rw [assocSet_keys, assocSet_keys]
    exact hw.2.1
  · exact hisSome ∅ hw.2.2.1
  · intro p hp
    rcases mem_assocSet hp with ⟨hp1, hp2⟩ | ⟨hpmem', hp1⟩
    · -- p is the updated dst archetype
      obtain ⟨pk, pA⟩ := p
      simp only at hp1 hp2
      subst hp1
      rw [hp2]
      refine ⟨hidB.trans rfl, hndB, hcovB, hmemkB, hlenB, hentB, ?_⟩
      intro q hq
      rcases List.mem_cons.mp hq with h | h
      · rw [h]
        refine ⟨?_, ?_⟩
        · simp only
          rw [hlook]
          by_cases hsd : src = pk
          · rw [if_pos hsd]; rfl
          · rw [if_neg hsd, if_pos rfl]; rfl
        · simp only
          exact hfrom
      · obtain ⟨hso, heq⟩ := hedgB q (List.mem_of_mem_filter h)
        exact ⟨hisSome _ hso, heq⟩
    · rcases mem_assocSet hpmem' with ⟨hp1', hp2'⟩ | ⟨hpmem, hp1''⟩
      · -- p is the updated src archetype
        obtain ⟨pk, pA⟩ := p
        simp only at hp1' hp2' hp1
        subst hp1'
        rw [hp2']
        refine ⟨hidA, hndA, hcovA, hmemkA, hlenA, hentA, ?_⟩
        intro q hq
        rcases List.mem_cons.mp hq with h | h
        · rw [h]
          refine ⟨?_, ?_⟩
          · simp only
            rw [hlook, if_pos rfl]
            rfl
          · simp only
            exact hto
        · obtain ⟨hso, heq⟩ := hedgA q (List.mem_of_mem_filter h)
          exact ⟨hisSome _ hso, heq⟩
      · obtain ⟨hid', hnd', hcov', hmemk', hlen', hent', hedg'⟩ := hw.2.2.2 p hpmem
        refine ⟨hid', hnd', hcov', hmemk', hlen', hent', ?_⟩
        intro q hq
        obtain ⟨hso, heq⟩ := hedg' q hq
        exact ⟨hisSome _ hso, heq⟩

/-- Prepending a fresh empty archetype (and any queue update) preserves the
invariant. -/
theorem prependArchetype_WF {w : World} (hw : WF w) {target : ArchetypeID}
    (hnone : assocGet w.table target = none) {D : Archetype} (q' : List ArchetypeID)
    (hid : D.id = target) (hnd : (D.components.map (fun s => s.id)).Nodup)
    (hcov : ∀ c ∈ target, ∃ s ∈ D.components, s.id = c)
    (hmemk : ∀ s ∈ D.components, s.id ∈ target)
    (hempty : ∀ s ∈ D.components, s.components = [] ∧ s.tracker = none)
    (hents : D.entities = []) (hedges : D.edges = []) :
    WF { w with new_archetypes_queue := q', table := (target, D) :: w.table } := by
  refine ⟨?_, ?_, ?_, ?_⟩
  · intro e' r' hr'
    obtain ⟨hlt, A'', hA'', hget⟩ := hw.1 e' r' hr'
    refine ⟨hlt, A'', ?_, hget⟩
    show assocGet ((target, D) :: w.table) r'.archetype_id = some A''
    rw [assocGet_cons]
    by_cases hk : target = r'.archetype_id
    · rw [← hk] at hA''
      rw [hA''] at hnone
      exact absurd hnone (by simp)
    · rw [if_neg hk]
      exact hA''
  · show (((target, D) :: w.table).map Prod.fst).Nodup
    rw [List.map_cons]
    refine List.nodup_cons.mpr ⟨?_, hw.2.1⟩
    intro hmem
    have := assocGet_isSome_iff_mem_keys.mpr hmem
    rw [hnone] at this
    simp at this
  · exact assocGet_cons_isSome_mono _ hw.2.2.1
  · intro p hp
    rcases List.mem_cons.mp hp with h | h
    · obtain ⟨pk, pA⟩ := p
      injection h with h1 h2
      subst h1
      subst h2
      refine ⟨hid, hnd, hcov, hmemk, ?_, ?_, ?_⟩
      · intro s hs
        rw [hents]
        obtain ⟨hc, ht⟩ := hempty s hs
        exact ⟨by simp [hc], fun t htr => absurd htr (by rw [ht]; simp)⟩
      · intro i hi
        rw [hents] at hi
        simp at hi
      · intro q hq
        rw [hedges] at hq
        simp at hq
    · obtain ⟨hid', hnd', hcov', hmemk', hlen', hent', hedg'⟩ := hw.2.2.2 p h
      refine ⟨hid', hnd', hcov', hmemk', hlen', hent', ?_⟩
      intro q hq
      obtain ⟨hso, heq⟩ := hedg' q hq
      exact ⟨assocGet_cons_isSome_mono _ hso, heq⟩

/-- `get_extended_archetype`, specified: under the invariant, adding a
component id not in the source set returns the world (possibly extended by a
new empty archetype and new graph edges) and the id `src ∪ {c}`; records and
counters are untouched and the source archetype keeps its storages and
entities. -/
theorem getExtendedArchetype_spec {w : World} (hw : WF w) {src : ArchetypeID}
    {A : Archetype} (hA : assocGet w.table src = some A) {c : ComponentID}
    (hc : c ∉ src) :
    ∃ w₁ A₁, w.getExtendedArchetype src c = some (w₁, insert c src) ∧ WF w₁ ∧
      w₁.records = w.records ∧ w₁.entityNext = w.entityNext ∧
      w₁.numComps = w.numComps ∧ w₁.tick = w.tick ∧
      assocGet w₁.table src = some A₁ ∧ A₁.id = A.id ∧
      A₁.components = A.components ∧ A₁.entities = A.entities ∧
      (assocGet w₁.table (insert c src)).isSome = true := by
  obtain ⟨hid, hnd, hcov, hmemk, hlen, hent, hedg⟩ := hw.lookup hA
  have htarget_ne : ¬ insert c src = src := by
    intro hcon
    exact hc (hcon ▸ Finset.mem_insert_self c src)
  unfold World.getExtendedArchetype
  rw [hA]
  simp only []
  cases hedge : assocGet A.edges c with
  | some dst =>
    obtain ⟨hso, heq⟩ := hedg (c, dst) (mem_of_assocGet_eq_some hedge)
    simp only [if_neg hc] at heq
    rw [heq]
    exact ⟨w, A, rfl, hw, rfl, rfl, rfl, rfl, hA, rfl, rfl, rfl, by rw [← heq]; exact hso⟩
  | none =>
    by_cases hexists : (assocGet w.table (insert c src)).isSome = true
    · rw [if_pos hexists]
      obtain ⟨B, hB⟩ := Option.isSome_iff_exists.mp hexists
      rw [insertGraphEdge_eq hA hB htarget_ne c]
      refine ⟨_, { A with edges := (c, insert c src) :: A.edges.filter (fun p => ¬ (p.1 = c)) }, rfl,
        insertGraphEdge_WF hw hA hB htarget_ne
          (by rw [if_neg hc])
          (by rw [if_pos (Finset.mem_insert_self c src), Finset.erase_insert hc]), rfl, rfl,
        rfl, rfl, ?_, rfl, rfl, rfl, ?_⟩
      · show assocGet (assocSet (assocSet w.table src _) (insert c src) _) src = _
        rw [assocGet_set, if_neg (fun h => htarget_ne h.symm), assocGet_set, if_pos rfl, hA]
        rfl
      · show (assocGet (assocSet (assocSet w.table src _) (insert c src) _) (insert c src)).isSome = true
        rw [assocGet_isSome_set, assocGet_isSome_set]
        exact hexists
    · rw [if_neg hexists]
      have hnone : assocGet w.table (insert c src) = none := by
        cases hv : assocGet w.table (insert c src)
        · rfl
        · rw [hv] at hexists; simp at hexists
      have hW₀ := prependArchetype_WF hw hnone
        (D := { id := insert c src,
                edges := [],
                components := { id := c, components := [], tracker := none } ::
                  A.components.map (fun s => { id := s.id, components := [], tracker := none }),
                entities := [] })
        (w.new_archetypes_queue ++ [insert c src])
        rfl
        (by
          simp only [List.map_cons, List.map_map]
          refine List.nodup_cons.mpr ⟨?_, ?_⟩
          · intro hmem
            obtain ⟨s, hs, hsid⟩ := List.mem_map.mp hmem
            exact hc (by
              have : s.id = c := hsid
              rw [← this]
              exact hmemk s hs)
          · have : (A.components.map ((fun s => s.id) ∘
                (fun s => ({ id := s.id, components := [], tracker := none } : ComponentStorage)))) =
                A.components.map (fun s => s.id) := by
              apply List.map_congr_left
              intro x _
              rfl
            rw [this]
            exact hnd)
        (by
          intro c' hc'
          rcases Finset.mem_insert.mp hc' with h | h
          · exact ⟨_, List.mem_cons_self _ _, h.symm⟩
          · obtain ⟨s, hs, hsid⟩ := hcov c' h
            exact ⟨{ id := s.id, components := [], tracker := none },
              List.mem_cons_of_mem _ (List.mem_map_of_mem _ hs), hsid⟩)
        (by
          intro s hs
          rcases List.mem_cons.mp hs with h | h
          · rw [h]
            exact Finset.mem_insert_self c src
          · obtain ⟨t, ht, hts⟩ := List.mem_map.mp h
            rw [← hts]
            exact Finset.mem_insert_of_mem (hmemk t ht))
        (by
          intro s hs
          rcases List.mem_cons.mp hs with h | h
          · rw [h]
            exact ⟨rfl, rfl⟩
          · obtain ⟨t, ht, hts⟩ := List.mem_map.mp h
            rw [← hts]
            exact ⟨rfl, rfl⟩)
        rfl
        rfl
      have hA₀ : assocGet ((insert c src,
          ({ id := insert c src
             edges := []
             components := { id := c, components := [], tracker := none } ::
               A.components.map (fun s => { id := s.id, components := [], tracker := none })
             entities := [] } : Archetype)) :: w.table) src = some A := by
        rw [assocGet_cons, if_neg htarget_ne]
        exact hA
      have hB₀ : assocGet ((insert c src,
          ({ id := insert c src
             edges := []
             components := { id := c, components := [], tracker := none } ::
               A.components.map (fun s => { id := s.id, components := [], tracker := none })
             entities := [] } : Archetype)) :: w.table) (insert c src) = some
          { id := insert c src
            edges := []
            components := { id := c, components := [], tracker := none } ::
              A.components.map (fun s => { id := s.id, components := [], tracker := none })
            entities := [] } := by
        rw [assocGet_cons, if_pos rfl]
      rw [insertGraphEdge_eq (w := { w with
            new_archetypes_queue := w.new_archetypes_queue ++ [insert c src]
            table := _ :: w.table }) hA₀ hB₀ htarget_ne c]
      refine ⟨_, { A with edges := (c, insert c src) :: A.edges.filter (fun p => ¬ (p.1 = c)) }, rfl,
        insertGraphEdge_WF hW₀ hA₀ hB₀ htarget_ne
          (by rw [if_neg hc])
          (by rw [if_pos (Finset.mem_insert_self c src), Finset.erase_insert hc]), rfl, rfl,
        rfl, rfl, ?_, rfl, rfl, rfl, ?_⟩
      · show assocGet (assocSet (assocSet _ src _) (insert c src) _) src = _
        rw [assocGet_set, if_neg (fun h => htarget_ne h.symm), assocGet_set, if_pos rfl, hA₀]
        rfl
      · show (assocGet (assocSet (assocSet _ src _) (insert c src) _) (insert c src)).isSome = true
        rw [assocGet_isSome_set, assocGet_isSome_set]
        rw [hB₀]
        rfl

/-- `get_reduced_archetype`, specified: symmetric to
`getExtendedArchetype_spec` for a component id present in the source set. -/
theorem getReducedArchetype_spec {w : World} (hw : WF w) {src : ArchetypeID}
    {A : Archetype} (hA : assocGet w.table src = some A) {c : ComponentID}
    (hc : c ∈ src) :
    ∃ w₁ A₁, w.getReducedArchetype src c = some (w₁, src.erase c) ∧ WF w₁ ∧
      w₁.records = w.records ∧ w₁.entityNext = w.entityNext ∧
      w₁.numComps = w.numComps ∧ w₁.tick = w.tick ∧
      assocGet w₁.table src = some A₁ ∧ A₁.id = A.id ∧
      A₁.components = A.components ∧ A₁.entities = A.entities ∧
      (assocGet w₁.table (src.erase c)).isSome = true := by
  obtain ⟨hid, hnd, hcov, hmemk, hlen, hent, hedg⟩ := hw.lookup hA
  have htarget_ne : ¬ src.erase c = src := by
    intro hcon
    exact (Finset.erase_eq_self.mp hcon) hc
  have hto : src.erase c = (if c ∈ src then src.erase c else insert c src) := by
    rw [if_pos hc]
  have hfrom : src = (if c ∈ src.erase c then (src.erase c).erase c
      else insert c (src.erase c)) := by
    rw [if_neg (Finset.not_mem_erase c src), Finset.insert_erase hc]
  unfold World.getReducedArchetype
  rw [hA]
  simp only []
  cases hedge : assocGet A.edges c with
  | some dst =>
    obtain ⟨hso, heq⟩ := hedg (c, dst) (mem_of_assocGet_eq_some hedge)
    simp only [if_pos hc] at heq
    rw [heq]
    exact ⟨w, A, rfl, hw, rfl, rfl, rfl, rfl, hA, rfl, rfl, rfl, by rw [← heq]; exact hso⟩
  | none =>
    by_cases hexists : (assocGet w.table (src.erase c)).isSome = true
    · rw [if_pos hexists]
      obtain ⟨B, hB⟩ := Option.isSome_iff_exists.mp hexists
      rw [insertGraphEdge_eq hA hB htarget_ne c]
      refine ⟨_, { A with edges := (c, src.erase c) :: A.edges.filter (fun p => ¬ (p.1 = c)) },
        rfl, insertGraphEdge_WF hw hA hB htarget_ne hto hfrom, rfl, rfl,
        rfl, rfl, ?_, rfl, rfl, rfl, ?_⟩
      · show assocGet (assocSet (assocSet w.table src _) (src.erase c) _) src = _
        rw [assocGet_set, if_neg (fun h => htarget_ne h.symm), assocGet_set, if_pos rfl, hA]
        rfl
      · show (assocGet (assocSet (assocSet w.table src _) (src.erase c) _) (src.erase c)).isSome = true
        rw [assocGet_isSome_set, assocGet_isSome_set]
        exact hexists
    · rw [if_neg hexists]
      have hnone : assocGet w.table (src.erase c) = none := by
        cases hv : assocGet w.table (src.erase c)
        · rfl
        · rw [hv] at hexists; simp at hexists
      have hW₀ := prependArchetype_WF hw hnone
        (D := { id := src.erase c,
                edges := [],
                components := (A.components.filter (fun s => ¬ (s.id = c))).map
                  (fun s => { id := s.id, components := [], tracker := none }),
                entities := [] })
        (w.new_archetypes_queue ++ [src.erase c])
        rfl
        (by
          simp only [List.map_map]
          have heq2 : ((A.components.filter (fun s => ¬ (s.id = c))).map ((fun s => s.id) ∘
              (fun s => ({ id := s.id, components := [], tracker := none } : ComponentStorage)))) =
              (A.components.filter (fun s => ¬ (s.id = c))).map (fun s => s.id) := by
            apply List.map_congr_left
            intro x _
            rfl
          rw [heq2]
          exact hnd.sublist (List.Sublist.map _ (List.filter_sublist _))
        )
        (by
          intro c' hc'
          obtain ⟨hcne, hcs⟩ := Finset.mem_erase.mp hc'
          obtain ⟨s, hs, hsid⟩ := hcov c' hcs
          exact ⟨{ id := s.id, components := [], tracker := none },
            List.mem_map_of_mem _ (List.mem_filter.mpr ⟨hs, by simp [hsid, hcne]⟩), hsid⟩
        )
        (by
          intro s hs
          obtain ⟨t, ht, hts⟩ := List.mem_map.mp hs
          obtain ⟨htmem, htp⟩ := List.mem_filter.mp ht
          rw [← hts]
          refine Finset.mem_erase.mpr ⟨?_, hmemk t htmem⟩
          simpa using htp
        )
        (by
          intro s hs
          obtain ⟨t, ht, hts⟩ := List.mem_map.mp hs
          rw [← hts]
          exact ⟨rfl, rfl⟩
        )
        rfl
        rfl
      have hA₀ : assocGet ((src.erase c,
          ({ id := src.erase c
             edges := []
             components := (A.components.filter (fun s => ¬ (s.id = c))).map
               (fun s => { id := s.id, components := [], tracker := none })
             entities := [] } : Archetype)) :: w.table) src = some A := by
        rw [assocGet_cons, if_neg htarget_ne]
        exact hA
      have hB₀ : assocGet ((src.erase c,
          ({ id := src.erase c
             edges := []
             components := (A.components.filter (fun s => ¬ (s.id = c))).map
               (fun s => { id := s.id, components := [], tracker := none })
             entities := [] } : Archetype)) :: w.table) (src.erase c) = some
          { id := src.erase c
            edges := []
            components := (A.components.filter (fun s => ¬ (s.id = c))).map
              (fun s => { id := s.id, components := [], tracker := none })
            entities := [] } := by
        rw [assocGet_cons, if_pos rfl]
      rw [insertGraphEdge_eq (w := { w with
            new_archetypes_queue := w.new_archetypes_queue ++ [src.erase c]
            table := _ :: w.table }) hA₀ hB₀ htarget_ne c]
      refine ⟨_, { A with edges := (c, src.erase c) :: A.edges.filter (fun p => ¬ (p.1 = c)) },
        rfl, insertGraphEdge_WF hW₀ hA₀ hB₀ htarget_ne hto hfrom, rfl, rfl,
        rfl, rfl, ?_, rfl, rfl, rfl, ?_⟩
      · show assocGet (assocSet (assocSet _ src _) (src.erase c) _) src = _
        rw [assocGet_set, if_neg (fun h => htarget_ne h.symm), assocGet_set, if_pos rfl, hA₀]
        rfl
      · show (assocGet (assocSet (assocSet _ src _) (src.erase c) _) (src.erase c)).isSome = true
        rw [assocGet_isSome_set, assocGet_isSome_set]
        rw [hB₀]
        rfl

/-- The `transfer_component` loop of `Archetype::transfer_entity`, specified:
every listed column loses its row in the source and gains one in the
destination; unlisted columns are untouched. -/
theorem transferComponents_spec {ids : List ComponentID} :
    ∀ {src dst : Archetype} {row n m : Nat},
    ids.Nodup →
    row < n →
    (∀ c ∈ ids, ∃ s, src.getStorage c = some s ∧ storageWF s n) →
    (∀ c ∈ ids, ∃ d, dst.getStorage c = some d ∧ storageWF d m) →
    ∃ src' dst', World.transferComponents src dst ids row = some (src', dst') ∧
      src'.id = src.id ∧ src'.edges = src.edges ∧ src'.entities = src.entities ∧
      dst'.id = dst.id ∧ dst'.edges = dst.edges ∧ dst'.entities = dst.entities ∧
      src'.components.map (fun s => s.id) = src.components.map (fun s => s.id) ∧
      dst'.components.map (fun s => s.id) = dst.components.map (fun s => s.id) ∧
      (∀ c, c ∉ ids → src'.getStorage c = src.getStorage c) ∧
      (∀ c ∈ ids, ∃ s, src'.getStorage c = some s ∧ storageWF s (n - 1)) ∧
      (∀ c, c ∉ ids → dst'.getStorage c = dst.getStorage c) ∧
      (∀ c ∈ ids, ∃ d, dst'.getStorage c = some d ∧ storageWF d (m + 1)) := by
  induction ids with
  | nil =>
    intro src dst row n m hnd hrow h1 h2
    exact ⟨src, dst, rfl, rfl, rfl, rfl, rfl, rfl, rfl, rfl, rfl,
      fun c _ => rfl, fun c hc => absurd hc (by simp),
      fun c _ => rfl, fun c hc => absurd hc (by simp)⟩
  | cons c rest ih =>
    intro src dst row n m hnd hrow h1 h2
    obtain ⟨hcrest, hndrest⟩ := List.nodup_cons.mp hnd
    obtain ⟨s, hgs, hsWF⟩ := h1 c (List.mem_cons_self _ _)
    obtain ⟨d, hgd, hdWF⟩ := h2 c (List.mem_cons_self _ _)
    have hsid : s.id = c := (Archetype.getStorage_mem hgs).2
    have hdid : d.id = c := (Archetype.getStorage_mem hgd).2
    obtain ⟨s', d', hmove, hs'id, hd'id, hs'WF, hd'WF⟩ :=
      ComponentStorage.move_spec hsWF hdWF (by omega : row < n)
    have hs'c : s'.id = c := hs'id.trans hsid
    have hd'c : d'.id = c := hd'id.trans hdid
    have h1' : ∀ c' ∈ rest, ∃ s₂, (src.setStorage c s').getStorage c' = some s₂ ∧
        storageWF s₂ n := by
      intro c' hc'
      have hne : ¬ c' = c := fun hcon => hcrest (hcon ▸ hc')
      rw [Archetype.getStorage_setStorage_ne hne hs'c]
      exact h1 c' (List.mem_cons_of_mem _ hc')
    have h2' : ∀ c' ∈ rest, ∃ d₂, (dst.setStorage c d').getStorage c' = some d₂ ∧
        storageWF d₂ m := by
      intro c' hc'
      have hne : ¬ c' = c := fun hcon => hcrest (hcon ▸ hc')
      rw [Archetype.getStorage_setStorage_ne hne hd'c]
      exact h2 c' (List.mem_cons_of_mem _ hc')
    obtain ⟨src', dst', hrec, hids₁, hedg₁, hent₁, hidd₁, hedgd₁, hentd₁,
      hmaps₁, hmapd₁, hunch_s, hin_s, hunch_d, hin_d⟩ :=
      ih hndrest hrow h1' h2'
    refine ⟨src', dst', ?_, ?_, ?_, ?_, ?_, ?_, ?_, ?_, ?_, ?_, ?_, ?_, ?_⟩
    · unfold World.transferComponents
      rw [hgs, hgd]
      simp only []
      rw [hmove]
      exact hrec
    · exact hids₁
    · exact hedg₁
    · exact hent₁
    · exact hidd₁
    · exact hedgd₁
    · exact hentd₁
    · rw [hmaps₁]
      exact Archetype.setStorage_compIds hs'c
    · rw [hmapd₁]
      exact Archetype.setStorage_compIds hd'c
    · intro c' hc'
      have hc'r : c' ∉ rest := fun hcon => hc' (List.mem_cons_of_mem _ hcon)
      have hc'c : ¬ c' = c := fun hcon => hc' (hcon ▸ List.mem_cons_self _ _)
      rw [hunch_s c' hc'r]
      exact Archetype.getStorage_setStorage_ne hc'c hs'c
    · intro c' hc'
      rcases List.mem_cons.mp hc' with h | h
      · subst h
        rw [hunch_s c' hcrest]
        rw [Archetype.getStorage_setStorage_self hs'c (by rw [hgs]; rfl)]
        exact ⟨s', rfl, hs'WF⟩
      · exact hin_s c' h
    · intro c' hc'
      have hc'r : c' ∉ rest := fun hcon => hc' (List.mem_cons_of_mem _ hcon)
      have hc'c : ¬ c' = c := fun hcon => hc' (hcon ▸ List.mem_cons_self _ _)
      rw [hunch_d c' hc'r]
      exact Archetype.getStorage_setStorage_ne hc'c hd'c
    · intro c' hc'
      rcases List.mem_cons.mp hc' with h | h
      · subst h
        rw [hunch_d c' hcrest]
        rw [Archetype.getStorage_setStorage_self hd'c (by rw [hgd]; rfl)]
        exact ⟨d', rfl, hd'WF⟩
      · exact hin_d c' h

/-- `Archetype::transfer_entity`, specified: moves all listed columns' row,
swap-removes the entity from the source entity list (fixing the swapped
entity's record) and appends it to the destination (setting its record). -/
theorem transferEntity_spec {src dst : Archetype} {ids : List ComponentID}
    {records : Records} {e : Entity} {r lastRec : EntityRecord} {n m : Nat}
    (hids : ids.Nodup)
    (hrec : records e = some r)
    (hrow : r.archetype_row < n)
    (hsrcn : src.entities.length = n)
    (hdstm : dst.entities.length = m)
    (h1 : ∀ c ∈ ids, ∃ s, src.getStorage c = some s ∧ storageWF s n)
    (h2 : ∀ c ∈ ids, ∃ d, dst.getStorage c = some d ∧ storageWF d m)
    (hlast : records (src.entities.getD (n - 1) 0) = some lastRec) :
    ∃ src₂ dst₂,
      World.transferEntity src dst e ids records = some (src₂, dst₂,
        fun e' => if e' = e then some ⟨dst.id, m⟩
          else if e' = src.entities.getD (n - 1) 0
            then some { lastRec with archetype_row := r.archetype_row }
            else records e') ∧
      src₂.id = src.id ∧ src₂.edges = src.edges ∧
      src₂.entities = listSwapRemove src.entities r.archetype_row ∧
      dst₂.id = dst.id ∧ dst₂.edges = dst.edges ∧
      dst₂.entities = dst.entities ++ [e] ∧
      src₂.components.map (fun s => s.id) = src.components.map (fun s => s.id) ∧
      dst₂.components.map (fun s => s.id) = dst.components.map (fun s => s.id) ∧
      (∀ c, c ∉ ids → src₂.getStorage c = src.getStorage c) ∧
      (∀ c ∈ ids, ∃ s, src₂.getStorage c = some s ∧ storageWF s (n - 1)) ∧
      (∀ c, c ∉ ids → dst₂.getStorage c = dst.getStorage c) ∧
      (∀ c ∈ ids, ∃ d, dst₂.getStorage c = some d ∧ storageWF d (m + 1)) := by
  obtain ⟨src', dst', hloop, hids₁, hedg₁, hent₁, hidd₁, hedgd₁, hentd₁,
    hmaps₁, hmapd₁, hunch_s, hin_s, hunch_d, hin_d⟩ :=
    transferComponents_spec hids hrow h1 h2
  have hlast' : records (src'.entities.getD (src'.entities.length - 1) 0) = some lastRec := by
    rw [hent₁, hsrcn]
    exact hlast
  have hrow' : r.archetype_row < src'.entities.length := by
    rw [hent₁, hsrcn]
    exact hrow
  have hdel := archeDeleteEntity_spec (A := src') hrec hrow' hlast'
  have hrecs₁e : (fun e' => if e' = src'.entities.getD (src'.entities.length - 1) 0
      then some { lastRec with archetype_row := r.archetype_row }
      else records e') e = some (if e = src'.entities.getD (src'.entities.length - 1) 0
      then { lastRec with archetype_row := r.archetype_row } else r) := by
    simp only
    by_cases he : e = src'.entities.getD (src'.entities.length - 1) 0
    · rw [if_pos he, if_pos he]
    · rw [if_neg he, if_neg he]
      exact hrec
  have hpush := archePushEntity_spec (A := dst') (e := e)
    (R := fun e' => if e' = src'.entities.getD (src'.entities.length - 1) 0
      then some { lastRec with archetype_row := r.archetype_row }
      else records e') hrecs₁e
  refine ⟨{ src' with entities := listSwapRemove src'.entities r.archetype_row },
    { dst' with entities := dst'.entities ++ [e] }, ?_, hids₁, hedg₁,
    by simp only [hent₁], hidd₁, hedgd₁, by simp only [hentd₁],
    hmaps₁, hmapd₁, hunch_s, hin_s, hunch_d, hin_d⟩
  unfold World.transferEntity
  rw [hrec]
  simp only []
  rw [hloop]
  simp only []
  rw [hdel]
  simp only []
  rw [hpush]
  simp only []
  have hfun : (fun e' => if e' = e then some (⟨dst'.id, dst'.entities.length⟩ : EntityRecord)
      else if e' = src'.entities.getD (src'.entities.length - 1) 0
        then some { lastRec with archetype_row := r.archetype_row }
        else records e') =
      (fun e' => if e' = e then some (⟨dst.id, m⟩ : EntityRecord)
        else if e' = src.entities.getD (n - 1) 0
          then some { lastRec with archetype_row := r.archetype_row }
          else records e') := by
    funext e'
    simp only [hidd₁, hentd₁, hent₁, hsrcn, hdstm]
  rw [hfun]

theorem Archetype.setStorage_id (A : Archetype) (c : ComponentID) (s' : ComponentStorage) :
    (A.setStorage c s').id = A.id := rfl

theorem Archetype.setStorage_edges (A : Archetype) (c : ComponentID) (s' : ComponentStorage) :
    (A.setStorage c s').edges = A.edges := rfl

theorem Archetype.setStorage_entities (A : Archetype) (c : ComponentID) (s' : ComponentStorage) :
    (A.setStorage c s').entities = A.entities := rfl

/-- A storage found by id in an archetype whose storage-id list has no
duplicates is the storage `find?` returns for that id. -/
theorem getStorage_of_mem_nodup {A : Archetype}
    (hnd : (A.components.map (fun s => s.id)).Nodup) {s : ComponentStorage}
    (hs : s ∈ A.components) : A.getStorage s.id = some s :=
  find?_id_eq_of_mem_nodup hnd hs

/-- `World::add_component` on a live entity that lacks the (registered)
component: succeeds, preserves the invariant, and re-homes the entity to the
archetype whose set is the source set plus the component bit. -/
theorem addComponent_spec {w : World} (hw : WF w) {e : Entity} {r : EntityRecord}
    (hrec : w.records e = some r) {c : Nat} (hcreg : c < w.numComps)
    (hcnot : c ∉ r.archetype_id) (v : Value) :
    ∃ w' m', w.addComponent c e v = some w' ∧ WF w' ∧
      w'.records e = some ⟨insert c r.archetype_id, m'⟩ ∧
      w'.numComps = w.numComps ∧ w'.entityNext = w.entityNext ∧ w'.tick = w.tick := by
  obtain ⟨A₀, hA₀, hrow₀, hback₀⟩ := hw.record_loc hrec
  have hid₀ : A₀.id = r.archetype_id := (hw.lookup hA₀).1
  have hHas : w.hasComponent c e = some false := by
    unfold World.hasComponent World.getId
    rw [hrec]
    simp only []
    rw [hA₀]
    simp only []
    rw [if_pos hcreg]
    simp only []
    rw [hid₀]
    rw [decide_eq_false (by exact hcnot)]
  obtain ⟨w₁, A₁, hgext, hWF₁, hrecs₁, hnext₁, hnum₁, htick₁, hA₁, hA₁id,
    hA₁comps, hA₁ents, hdkSome⟩ := getExtendedArchetype_spec hw hA₀ hcnot
  obtain ⟨D, hD⟩ := Option.isSome_iff_exists.mp hdkSome
  have hrec₁ : w₁.records e = some r := by rw [hrecs₁]; exact hrec
  obtain ⟨hid₁, hnd₁, hcov₁, hmemk₁, hlen₁, hent₁, hedg₁⟩ := hWF₁.lookup hA₁
  obtain ⟨hidD, hndD, hcovD, hmemkD, hlenD, hentD, hedgD⟩ := hWF₁.lookup hD
  have hknedk : ¬ r.archetype_id = insert c r.archetype_id := by
    intro hcon
    exact hcnot (by rw [hcon]; exact Finset.mem_insert_self c _)
  have hrow : r.archetype_row < A₁.entities.length := by
    rw [hA₁ents]; exact hrow₀
  -- the destination's new column
  have hcivD : c ∈ insert c r.archetype_id := Finset.mem_insert_self c _
  obtain ⟨dstStore, hgds⟩ : ∃ s, D.getStorage c = some s := by
    have := Archetype.getStorage_isSome (A := D) (c := c) (hcovD c hcivD)
    exact Option.isSome_iff_exists.mp this
  have hdsWF : storageWF dstStore D.entities.length :=
    hlenD dstStore (Archetype.getStorage_mem hgds).1
  have hpushid : (dstStore.push v).id = c :=
    (ComponentStorage.push_id dstStore v).trans (Archetype.getStorage_mem hgds).2
  -- the ids carried over
  have hids_nodup : (A₁.compIds).Nodup := hnd₁
  have h1 : ∀ c' ∈ A₁.compIds, ∃ s, A₁.getStorage c' = some s ∧
      storageWF s A₁.entities.length := by
    intro c' hc'
    obtain ⟨t, ht, htid⟩ := List.mem_map.mp hc'
    refine ⟨t, ?_, hlen₁ t ht⟩
    rw [← htid]
    exact getStorage_of_mem_nodup hnd₁ ht
  have h2 : ∀ c' ∈ A₁.compIds, ∃ d,
      (D.setStorage c (dstStore.push v)).getStorage c' = some d ∧
      storageWF d D.entities.length := by
    intro c' hc'
    obtain ⟨t, ht, htid⟩ := List.mem_map.mp hc'
    have hc'k : c' ∈ r.archetype_id := by
      rw [← htid]
      rw [← hid₁] at hmemk₁
      have := hmemk₁ t ht
      rw [hid₁] at this
      exact this
    have hc'ne : ¬ c' = c := fun hcon => hcnot (hcon ▸ hc'k)
    rw [Archetype.getStorage_setStorage_ne hc'ne hpushid]
    obtain ⟨d, hd, hdid⟩ := hcovD c' (Finset.mem_insert_of_mem hc'k)
    refine ⟨d, ?_, hlenD d hd⟩
    rw [← hdid]
    exact getStorage_of_mem_nodup hndD hd
  have hlastrec : w₁.records (A₁.entities.getD (A₁.entities.length - 1) 0) =
      some ⟨r.archetype_id, A₁.entities.length - 1⟩ :=
    hent₁ (A₁.entities.length - 1) (by omega)
  obtain ⟨src₂, dst₂, hTE, hs₂id, hs₂edges, hs₂ents, hd₂id, hd₂edges, hd₂ents,
    hs₂map, hd₂map, hs₂unch, hs₂in, hd₂unch, hd₂in⟩ :=
    transferEntity_spec (e := e) (r := r)
      (n := A₁.entities.length) (m := D.entities.length)
      hids_nodup hrec₁ hrow (rfl : A₁.entities.length = A₁.entities.length)
      (rfl : (D.setStorage c (dstStore.push v)).entities.length = D.entities.length)
      h1 h2 hlastrec
  have hraw : w.addComponent c e v = some
      { w₁ with
          records := fun e' => if e' = e
              then some ⟨(D.setStorage c (dstStore.push v)).id, D.entities.length⟩
            else if e' = A₁.entities.getD (A₁.entities.length - 1) 0
              then some ⟨r.archetype_id, r.archetype_row⟩
              else w₁.records e'
          table := assocSet (assocSet w₁.table r.archetype_id src₂)
            (insert c r.archetype_id) dst₂ } := by
    unfold World.addComponent
    rw [hHas]
    simp only []
    unfold World.getId
    rw [if_pos hcreg]
    simp only []
    rw [hrec]
    simp only []
    rw [hgext]
    simp only []
    rw [if_neg hknedk]
    rw [hA₁, hD]
    simp only []
    rw [hgds]
    simp only []
    rw [hTE]
  have hfun : (fun e' => if e' = e
        then some ⟨(D.setStorage c (dstStore.push v)).id, D.entities.length⟩
      else if e' = A₁.entities.getD (A₁.entities.length - 1) 0
        then some ⟨r.archetype_id, r.archetype_row⟩
        else w₁.records e') =
      (fun e' => if e' = e
        then some ⟨insert c r.archetype_id, D.entities.length⟩
      else if e' = A₁.entities.getD (A₁.entities.length - 1) 0
        then some ⟨r.archetype_id, r.archetype_row⟩
        else w₁.records e') := by
    funext e'
    rw [Archetype.setStorage_id, hidD]
  rw [hfun] at hraw
  refine ⟨_, D.entities.length, hraw, ?_, ?_, hnum₁, hnext₁, htick₁⟩
  case refine_2 =>
    show (if e = e then some (⟨insert c r.archetype_id, D.entities.length⟩ : EntityRecord)
      else _) = _
    rw [if_pos rfl]
  -- the invariant for the new world
  have hlookT : ∀ k', assocGet (assocSet (assocSet w₁.table r.archetype_id src₂)
      (insert c r.archetype_id) dst₂) k' =
      (if k' = insert c r.archetype_id then some dst₂
       else if k' = r.archetype_id then some src₂
       else assocGet w₁.table k') := by
    intro k'
    by_cases hk : k' = insert c r.archetype_id
    · rw [if_pos hk]
      subst hk
      rw [assocGet_set, if_pos rfl, assocGet_set, if_neg (fun h => hknedk h.symm), hD]
      rfl
    · rw [if_neg hk, assocGet_set, if_neg hk]
      by_cases hk' : k' = r.archetype_id
      · subst hk'
        rw [if_pos rfl, assocGet_set, if_pos rfl, hA₁]
        rfl
      · rw [if_neg hk', assocGet_set, if_neg hk']
  have hlastne_aux : ∀ i, i < A₁.entities.length → ∀ {e₀ r₀}, w₁.records e₀ = some r₀ →
      ¬ (r.archetype_id = r₀.archetype_id ∧ i = r₀.archetype_row) →
      ¬ (A₁.entities.getD i 0 = e₀) := by
    intro i hi e₀ r₀ hr₀ hne hcon
    have hx := hent₁ i hi
    rw [hcon] at hx
    have heq := records_functional hr₀ hx
    have haid := congrArg EntityRecord.archetype_id heq
    have hrw := congrArg EntityRecord.archetype_row heq
    simp only at haid hrw
    exact hne ⟨haid.symm, hrw.symm⟩
  refine ⟨?_, ?_, ?_, ?_⟩
  · -- records clause
    intro e' r' hr'
    simp only at hr'
    by_cases he' : e' = e
    · rw [if_pos he'] at hr'
      injection hr' with hr'
      refine ⟨?_, ?_⟩
      · rw [he']
        show e < w₁.entityNext
        rw [hnext₁]
        exact (hw.1 e r hrec).1
      refine ⟨dst₂, ?_, ?_⟩
      · show assocGet _ r'.archetype_id = some dst₂
        rw [← hr']
        simp only
        rw [hlookT, if_pos rfl]
      · rw [← hr']
        simp only
        rw [hd₂ents, Archetype.setStorage_entities]
        rw [he']
        exact List.get?_concat_length _ _
    · rw [if_neg he'] at hr'
      by_cases hel : e' = A₁.entities.getD (A₁.entities.length - 1) 0
      · rw [if_pos hel] at hr'
        injection hr' with hr'
        have hlastlt : A₁.entities.getD (A₁.entities.length - 1) 0 < w₁.entityNext :=
          (hWF₁.1 _ _ hlastrec).1
        have hrowne : r.archetype_row ≠ A₁.entities.length - 1 := by
          intro hcon
          apply he'
          rw [hel, ← hcon]
          rw [← hA₁ents] at hback₀
          exact hback₀
        refine ⟨by rw [hel]; exact hlastlt, src₂, ?_, ?_⟩
        · rw [← hr']
          simp only
          rw [hlookT, if_neg hknedk, if_pos rfl]
        · rw [← hr']
          simp only
          rw [hs₂ents]
          rw [listSwapRemove_get? _ _ _ hrow (by omega)]
          rw [if_pos rfl, hel]
          exact get?_eq_some_getD 0 (by omega)
      · rw [if_neg hel] at hr'
        obtain ⟨hlt', A'', hA'', hget''⟩ := hWF₁.1 e' r' hr'
        refine ⟨hlt', ?_⟩
        rw [hlookT]
        by_cases hdk : r'.archetype_id = insert c r.archetype_id
        · rw [if_pos hdk]
          rw [hdk] at hA''
          have hDeq : A'' = D := Option.some.inj (hA''.symm.trans hD)
          rw [hDeq] at hget''
          refine ⟨dst₂, rfl, ?_⟩
          rw [hd₂ents, Archetype.setStorage_entities]
          have hr'm : r'.archetype_row < D.entities.length := (List.get?_eq_some.mp hget'').1
          rw [List.get?_append hr'm]
          exact hget''
        · rw [if_neg hdk]
          by_cases hk : r'.archetype_id = r.archetype_id
          · rw [if_pos hk]
            rw [hk] at hA''
            have hAeq : A'' = A₁ := Option.some.inj (hA''.symm.trans hA₁)
            rw [hAeq] at hget''
            have hr'n : r'.archetype_row < A₁.entities.length := (List.get?_eq_some.mp hget'').1
            have hrne : r'.archetype_row ≠ r.archetype_row := by
              intro hcon
              exact he' (hWF₁.record_inj hr' hrec₁ hk hcon)
            have hrne2 : r'.archetype_row ≠ A₁.entities.length - 1 := by
              intro hcon
              apply hel
              rw [← hcon]
              rw [get?_eq_some_getD 0 hr'n] at hget''
              injection hget'' with hget''
              exact hget''.symm
            refine ⟨src₂, rfl, ?_⟩
            rw [hs₂ents]
            rw [listSwapRemove_get? _ _ _ hrow (by omega)]
            rw [if_neg hrne]
            exact hget''
          · rw [if_neg hk]
            exact ⟨A'', hA'', hget''⟩
  · simp only
    rw [assocSet_keys, assocSet_keys]
    exact hWF₁.2.1
  · simp only
    rw [assocGet_isSome_set, assocGet_isSome_set]
    exact hWF₁.2.2.1
  · intro p hp
    simp only at hp
    rcases mem_assocSet hp with ⟨hp1, hp2⟩ | ⟨hp', hp1⟩
    · -- the destination archetype
      obtain ⟨pk, pA⟩ := p
      simp only at hp1 hp2
      subst hp1
      rw [hp2]
      have hd₂idv : dst₂.id = insert c r.archetype_id := by
        rw [hd₂id, Archetype.setStorage_id, hidD]
      have hd₂mapv : dst₂.components.map (fun s => s.id) =
          D.components.map (fun s => s.id) := by
        rw [hd₂map]
        exact Archetype.setStorage_compIds hpushid
      refine ⟨hd₂idv, ?_, ?_, ?_, ?_, ?_, ?_⟩
      · rw [hd₂mapv]; exact hndD
      · intro c' hc'
        obtain ⟨d, hd, hdid⟩ := hcovD c' hc'
        have : c' ∈ dst₂.components.map (fun s => s.id) := by
          rw [hd₂mapv]
          exact List.mem_map.mpr ⟨d, hd, hdid⟩
        obtain ⟨d', hd', hdid'⟩ := List.mem_map.mp this
        exact ⟨d', hd', hdid'⟩
      · intro s hs
        have : s.id ∈ D.components.map (fun t => t.id) := by
          rw [← hd₂mapv]
          exact List.mem_map_of_mem _ hs
        obtain ⟨t, ht, htid⟩ := List.mem_map.mp this
        rw [← htid]
        exact hmemkD t ht
      · intro s hs
        have hlen2 : dst₂.entities.length = D.entities.length + 1 := by
          rw [hd₂ents, Archetype.setStorage_entities, List.length_append]
          rfl
        rw [hlen2]
        have hsid_mem : s.id ∈ D.components.map (fun t => t.id) := by
          rw [← hd₂mapv]
          exact List.mem_map_of_mem _ hs
        have hget : dst₂.getStorage s.id = some s := by
          apply getStorage_of_mem_nodup
          · rw [hd₂mapv]; exact hndD
          · exact hs
        by_cases hsin : s.id ∈ A₁.compIds
        · obtain ⟨d, hd, hdWF⟩ := hd₂in s.id hsin
          have : s = d := Option.some.inj (hget.symm.trans hd)
          rw [this]
          exact hdWF
        · have hunch := hd₂unch s.id hsin
          rw [hunch] at hget
          obtain ⟨t, ht, htid⟩ := List.mem_map.mp hsid_mem
          have htk : t.id ∈ insert c r.archetype_id := hmemkD t ht
          by_cases hsc : s.id = c
          · rw [hsc] at hget
            rw [Archetype.getStorage_setStorage_self hpushid
              (by rw [hgds]; rfl)] at hget
            have : s = dstStore.push v := (Option.some.inj hget).symm
            rw [this]
            exact ComponentStorage.push_storageWF hdsWF v
          · exfalso
            apply hsin
            have hsk : s.id ∈ r.archetype_id := by
              rcases Finset.mem_insert.mp (htid ▸ htk) with h | h
              · exact absurd h hsc
              · exact h
            obtain ⟨u, hu, huid⟩ := hcov₁ s.id (by rw [← hid₁] at hsk ⊢; exact hsk)
            exact List.mem_map.mpr ⟨u, hu, huid⟩
      · intro i hi
        have hlen2 : dst₂.entities.length = D.entities.length + 1 := by
          rw [hd₂ents, Archetype.setStorage_entities, List.length_append]
          rfl
        rw [hlen2] at hi
        rw [hd₂ents, Archetype.setStorage_entities]
        by_cases him : i < D.entities.length
        · rw [getD_append_lt _ _ _ _ him]
          have hei := hentD i him
          have hne_e : ¬ (D.entities.getD i 0 = e) := by
            intro hcon
            rw [hcon] at hei
            have := records_functional hrec₁ hei
            have haa := congrArg EntityRecord.archetype_id this
            simp only at haa
            exact hknedk haa
          have hne_last : ¬ (D.entities.getD i 0 =
              A₁.entities.getD (A₁.entities.length - 1) 0) := by
            intro hcon
            rw [hcon] at hei
            have := records_functional hlastrec hei
            have haa := congrArg EntityRecord.archetype_id this
            simp only at haa
            exact hknedk haa
          show (if D.entities.getD i 0 = e then _ else _) = _
          rw [if_neg hne_e, if_neg hne_last, hrecs₁]
          rw [← hrecs₁]
          exact hei
        · have hieq : i = D.entities.length := by omega
          subst hieq
          rw [getD_concat_self]
          show (if e = e then _ else _) = _
          rw [if_pos rfl]
      · intro q hq
        have hq' : q ∈ D.edges := by
          rw [hd₂edges, Archetype.setStorage_edges] at hq
          exact hq
        obtain ⟨hso, heq⟩ := hedgD q hq'
        refine ⟨?_, heq⟩
        simp only
        rw [assocGet_isSome_set, assocGet_isSome_set]
        exact hso
    · rcases mem_assocSet hp' with ⟨hp1', hp2'⟩ | ⟨hpmem, hp1''⟩
      · -- the source archetype
        obtain ⟨pk, pA⟩ := p
        simp only at hp1' hp2' hp1
        subst hp1'
        rw [hp2']
        have hs₂idv : src₂.id = r.archetype_id := by
          rw [hs₂id, hid₁]
        refine ⟨hs₂idv, ?_, ?_, ?_, ?_, ?_, ?_⟩
        · rw [hs₂map]; exact hnd₁
        · intro c' hc'
          obtain ⟨s, hs, hsid⟩ := hcov₁ c' hc'
          have : c' ∈ src₂.components.map (fun t => t.id) := by
            rw [hs₂map]
            exact List.mem_map.mpr ⟨s, hs, hsid⟩
          obtain ⟨s', hs', hsid'⟩ := List.mem_map.mp this
          exact ⟨s', hs', hsid'⟩
        · intro s hs
          have : s.id ∈ A₁.components.map (fun t => t.id) := by
            rw [← hs₂map]
            exact List.mem_map_of_mem _ hs
          obtain ⟨t, ht, htid⟩ := List.mem_map.mp this
          rw [← htid]
          exact hmemk₁ t ht
        · intro s hs
          have hlen2 : src₂.entities.length = A₁.entities.length - 1 := by
            rw [hs₂ents]
            exact listSwapRemove_length _ _ hrow
          rw [hlen2]
          have hsin : s.id ∈ A₁.compIds := by
            have : s.id ∈ src₂.components.map (fun t => t.id) :=
              List.mem_map_of_mem _ hs
            rw [hs₂map] at this
            exact this
          obtain ⟨s', hs', hsWF⟩ := hs₂in s.id hsin
          have hget : src₂.getStorage s.id = some s := by
            apply getStorage_of_mem_nodup
            · rw [hs₂map]; exact hnd₁
            · exact hs
          have : s = s' := Option.some.inj (hget.symm.trans hs')
          rw [this]
          exact hsWF
        · intro i hi
          have hlen2 : src₂.entities.length = A₁.entities.length - 1 := by
            rw [hs₂ents]
            exact listSwapRemove_length _ _ hrow
          rw [hlen2] at hi
          rw [hs₂ents]
          rw [listSwapRemove_getD _ _ _ _ hrow (by omega)]
          by_cases hir : i = r.archetype_row
          · rw [if_pos hir]
            have hlast_ne_e : ¬ (A₁.entities.getD (A₁.entities.length - 1) 0 = e) := by
              intro hcon
              rw [hcon] at hlastrec
              have := records_functional hrec₁ hlastrec
              have hrr := congrArg EntityRecord.archetype_row this
              simp only at hrr
              omega
            show (if A₁.entities.getD (A₁.entities.length - 1) 0 = e then _ else _) = _
            rw [if_neg hlast_ne_e, if_pos rfl, hir]
          · rw [if_neg hir]
            have hei := hent₁ i (by omega)
            have hne_e : ¬ (A₁.entities.getD i 0 = e) :=
              hlastne_aux i (by omega) hrec₁ (fun hcon => hir hcon.2)
            have hne_last : ¬ (A₁.entities.getD i 0 =
                A₁.entities.getD (A₁.entities.length - 1) 0) := by
              intro hcon
              rw [hcon] at hei
              have := records_functional hlastrec hei
              have hrr := congrArg EntityRecord.archetype_row this
              simp only at hrr
              omega
            show (if A₁.entities.getD i 0 = e then _ else _) = _
            rw [if_neg hne_e, if_neg hne_last, hrecs₁]
            rw [← hrecs₁]
            exact hei
        · intro q hq
          have hq' : q ∈ A₁.edges := by
            rw [hs₂edges] at hq
            exact hq
          obtain ⟨hso, heq⟩ := hedg₁ q hq'
          refine ⟨?_, heq⟩
          simp only
          rw [assocGet_isSome_set, assocGet_isSome_set]
          exact hso
      · -- untouched archetypes
        obtain ⟨hid', hnd', hcov', hmemk', hlen', hent', hedg'⟩ := hWF₁.2.2.2 p hpmem
        refine ⟨hid', hnd', hcov', hmemk', hlen', ?_, ?_⟩
        · intro i hi
          have hei := hent' i hi
          have hne_e : ¬ (p.2.entities.getD i 0 = e) := by
            intro hcon
            rw [hcon] at hei
            have := records_functional hrec₁ hei
            have haa := congrArg EntityRecord.archetype_id this
            simp only at haa
            exact hp1'' haa.symm
          have hne_last : ¬ (p.2.entities.getD i 0 =
              A₁.entities.getD (A₁.entities.length - 1) 0) := by
            intro hcon
            rw [hcon] at hei
            have := records_functional hlastrec hei
            have haa := congrArg EntityRecord.archetype_id this
            simp only at haa
            exact hp1'' haa.symm
          show (if p.2.entities.getD i 0 = e then _ else _) = _
          rw [if_neg hne_e, if_neg hne_last, hrecs₁]
          rw [← hrecs₁]
          exact hei
        · intro q hq
          obtain ⟨hso, heq⟩ := hedg' q hq
          refine ⟨?_, heq⟩
          simp only
          rw [assocGet_isSome_set, assocGet_isSome_set]
          exact hso

/-- `World::remove_component` on a live entity that holds the (registered)
component: succeeds, preserves the invariant, and re-homes the entity to the
archetype whose set is the source set minus the component bit. -/
theorem removeComponent_spec {w : World} (hw : WF w) {e : Entity} {r : EntityRecord}
    (hrec : w.records e = some r) {c : Nat} (hcreg : c < w.numComps)
    (hcin : c ∈ r.archetype_id) :
    ∃ w' m', w.removeComponent c e = some w' ∧ WF w' ∧
      w'.records e = some ⟨r.archetype_id.erase c, m'⟩ ∧
      w'.numComps = w.numComps ∧ w'.entityNext = w.entityNext ∧ w'.tick = w.tick := by
  obtain ⟨A₀, hA₀, hrow₀, hback₀⟩ := hw.record_loc hrec
  have hid₀ : A₀.id = r.archetype_id := (hw.lookup hA₀).1
  have hHas : w.hasComponent c e = some true := by
    unfold World.hasComponent World.getId
    rw [hrec]
    simp only []
    rw [hA₀]
    simp only []
    rw [if_pos hcreg]
    simp only []
    rw [hid₀]
    rw [decide_eq_true hcin]
  obtain ⟨w₁, A₁, hgred, hWF₁, hrecs₁, hnext₁, hnum₁, htick₁, hA₁, hA₁id,
    hA₁comps, hA₁ents, hdkSome⟩ := getReducedArchetype_spec hw hA₀ hcin
  obtain ⟨D, hD⟩ := Option.isSome_iff_exists.mp hdkSome
  have hrec₁ : w₁.records e = some r := by rw [hrecs₁]; exact hrec
  obtain ⟨hid₁, hnd₁, hcov₁, hmemk₁, hlen₁, hent₁, hedg₁⟩ := hWF₁.lookup hA₁
  obtain ⟨hidD, hndD, hcovD, hmemkD, hlenD, hentD, hedgD⟩ := hWF₁.lookup hD
  have hknedk : ¬ r.archetype_id = r.archetype_id.erase c := by
    intro hcon
    exact Finset.not_mem_erase c r.archetype_id (hcon ▸ hcin)
  have hrow : r.archetype_row < A₁.entities.length := by
    rw [hA₁ents]; exact hrow₀
  -- the source's column for the removed component
  obtain ⟨s, hsmem, hsid⟩ := hcov₁ c hcin
  have hget_s : A₁.getStorage c = some s := by
    rw [← hsid]
    exact getStorage_of_mem_nodup hnd₁ hsmem
  obtain ⟨s', hdel, hs'id₀, hs'WF⟩ :=
    ComponentStorage.delete_spec (hlen₁ s hsmem) hrow
  have hs'idc : s'.id = c := hs'id₀.trans hsid
  -- the ids carried over are the destination's
  have h1 : ∀ c' ∈ D.compIds, ∃ t, (A₁.setStorage c s').getStorage c' = some t ∧
      storageWF t A₁.entities.length := by
    intro c' hc'
    obtain ⟨t, ht, htid⟩ := List.mem_map.mp hc'
    have hc'dk : c' ∈ r.archetype_id.erase c := htid ▸ hmemkD t ht
    obtain ⟨hc'ne, hc'k⟩ := Finset.mem_erase.mp hc'dk
    rw [Archetype.getStorage_setStorage_ne hc'ne hs'idc]
    obtain ⟨u, hu, huid⟩ := hcov₁ c' hc'k
    refine ⟨u, ?_, hlen₁ u hu⟩
    rw [← huid]
    exact getStorage_of_mem_nodup hnd₁ hu
  have h2 : ∀ c' ∈ D.compIds, ∃ d, D.getStorage c' = some d ∧
      storageWF d D.entities.length := by
    intro c' hc'
    obtain ⟨t, ht, htid⟩ := List.mem_map.mp hc'
    refine ⟨t, ?_, hlenD t ht⟩
    rw [← htid]
    exact getStorage_of_mem_nodup hndD ht
  have hlastrec : w₁.records ((A₁.setStorage c s').entities.getD
      ((A₁.setStorage c s').entities.length - 1) 0) =
      some ⟨r.archetype_id, A₁.entities.length - 1⟩ := by
    rw [Archetype.setStorage_entities]
    exact hent₁ (A₁.entities.length - 1) (by omega)
  have hndD' : (D.compIds).Nodup := hndD
  obtain ⟨src₂, dst₂, hTE, hs₂id, hs₂edges, hs₂ents, hd₂id, hd₂edges, hd₂ents,
    hs₂map, hd₂map, hs₂unch, hs₂in, hd₂unch, hd₂in⟩ :=
    transferEntity_spec (e := e) (r := r)
      (n := A₁.entities.length) (m := D.entities.length)
      hndD' hrec₁ hrow
      (rfl : (A₁.setStorage c s').entities.length = A₁.entities.length)
      (rfl : D.entities.length = D.entities.length)
      h1 h2 hlastrec
  have hraw : w.removeComponent c e = some
      { w₁ with
          records := fun e' => if e' = e
              then some ⟨D.id, D.entities.length⟩
            else if e' = (A₁.setStorage c s').entities.getD
                ((A₁.setStorage c s').entities.length - 1) 0
              then some ⟨r.archetype_id, r.archetype_row⟩
              else w₁.records e'
          table := assocSet (assocSet w₁.table r.archetype_id src₂)
            (r.archetype_id.erase c) dst₂ } := by
    unfold World.removeComponent
    rw [hHas]
    simp only []
    unfold World.getId
    rw [if_pos hcreg]
    simp only []
    rw [hrec]
    simp only []
    rw [hgred]
    simp only []
    rw [if_neg hknedk]
    rw [hA₁, hD]
    simp only []
    rw [hget_s]
    simp only []
    rw [hdel]
    simp only []
    rw [hTE]
    simp only []
    rfl
  have hfun : (fun e' => if e' = e
        then some ⟨D.id, D.entities.length⟩
      else if e' = (A₁.setStorage c s').entities.getD
          ((A₁.setStorage c s').entities.length - 1) 0
        then some ⟨r.archetype_id, r.archetype_row⟩
        else w₁.records e') =
      (fun e' => if e' = e
        then some ⟨r.archetype_id.erase c, D.entities.length⟩
      else if e' = A₁.entities.getD (A₁.entities.length - 1) 0
        then some ⟨r.archetype_id, r.archetype_row⟩
        else w₁.records e') := by
    funext e'
    rw [Archetype.setStorage_entities, hidD]
  rw [hfun] at hraw
  refine ⟨_, D.entities.length, hraw, ?_, ?_, hnum₁, hnext₁, htick₁⟩
  case refine_2 =>
    show (if e = e then some (⟨r.archetype_id.erase c, D.entities.length⟩ : EntityRecord)
      else _) = _
    rw [if_pos rfl]
  have hlookT : ∀ k', assocGet (assocSet (assocSet w₁.table r.archetype_id src₂)
      (r.archetype_id.erase c) dst₂) k' =
      (if k' = r.archetype_id.erase c then some dst₂
       else if k' = r.archetype_id then some src₂
       else assocGet w₁.table k') := by
    intro k'
    by_cases hk : k' = r.archetype_id.erase c
    · rw [if_pos hk]
      subst hk
      rw [assocGet_set, if_pos rfl, assocGet_set, if_neg (fun h => hknedk h.symm), hD]
      rfl
    · rw [if_neg hk, assocGet_set, if_neg hk]
      by_cases hk' : k' = r.archetype_id
      · subst hk'
        rw [if_pos rfl, assocGet_set, if_pos rfl, hA₁]
        rfl
      · rw [if_neg hk', assocGet_set, if_neg hk']
  refine ⟨?_, ?_, ?_, ?_⟩
  · -- records clause
    intro e' r' hr'
    simp only at hr'
    by_cases he' : e' = e
    · rw [if_pos he'] at hr'
      injection hr' with hr'
      refine ⟨?_, ?_⟩
      · rw [he']
        show e < w₁.entityNext
        rw [hnext₁]
        exact (hw.1 e r hrec).1
      refine ⟨dst₂, ?_, ?_⟩
      · show assocGet _ r'.archetype_id = some dst₂
        rw [← hr']
        simp only
        rw [hlookT, if_pos rfl]
      · rw [← hr']
        simp only
        rw [hd₂ents]
        rw [he']
        exact List.get?_concat_length _ _
    · rw [if_neg he'] at hr'
      by_cases hel : e' = A₁.entities.getD (A₁.entities.length - 1) 0
      · rw [if_pos hel] at hr'
        injection hr' with hr'
        have hlastrec' : w₁.records (A₁.entities.getD (A₁.entities.length - 1) 0) =
            some ⟨r.archetype_id, A₁.entities.length - 1⟩ :=
          hent₁ (A₁.entities.length - 1) (by omega)
        have hlastlt : A₁.entities.getD (A₁.entities.length - 1) 0 < w₁.entityNext :=
          (hWF₁.1 _ _ hlastrec').1
        have hrowne : r.archetype_row ≠ A₁.entities.length - 1 := by
          intro hcon
          apply he'
          rw [hel, ← hcon]
          rw [← hA₁ents] at hback₀
          exact hback₀
        refine ⟨by rw [hel]; exact hlastlt, src₂, ?_, ?_⟩
        · rw [← hr']
          simp only
          rw [hlookT, if_neg hknedk, if_pos rfl]
        · rw [← hr']
          simp only
          rw [hs₂ents, Archetype.setStorage_entities]
          rw [listSwapRemove_get? _ _ _ hrow (by omega)]
          rw [if_pos rfl, hel]
          exact get?_eq_some_getD 0 (by omega)
      · rw [if_neg hel] at hr'
        obtain ⟨hlt', A'', hA'', hget''⟩ := hWF₁.1 e' r' hr'
        refine ⟨hlt', ?_⟩
        rw [hlookT]
        by_cases hdk : r'.archetype_id = r.archetype_id.erase c
        · rw [if_pos hdk]
          rw [hdk] at hA''
          have hDeq : A'' = D := Option.some.inj (hA''.symm.trans hD)
          rw [hDeq] at hget''
          refine ⟨dst₂, rfl, ?_⟩
          rw [hd₂ents]
          have hr'm : r'.archetype_row < D.entities.length := (List.get?_eq_some.mp hget'').1
          rw [List.get?_append hr'm]
          exact hget''
        · rw [if_neg hdk]
          by_cases hk : r'.archetype_id = r.archetype_id
          · rw [if_pos hk]
            rw [hk] at hA''
            have hAeq : A'' = A₁ := Option.some.inj (hA''.symm.trans hA₁)
            rw [hAeq] at hget''
            have hr'n : r'.archetype_row < A₁.entities.length := (List.get?_eq_some.mp hget'').1
            have hrne : r'.archetype_row ≠ r.archetype_row := by
              intro hcon
              exact he' (hWF₁.record_inj hr' hrec₁ hk hcon)
            have hrne2 : r'.archetype_row ≠ A₁.entities.length - 1 := by
              intro hcon
              apply hel
              rw [← hcon]
              rw [get?_eq_some_getD 0 hr'n] at hget''
              injection hget'' with hget''
              exact hget''.symm
            refine ⟨src₂, rfl, ?_⟩
            rw [hs₂ents, Archetype.setStorage_entities]
            rw [listSwapRemove_get? _ _ _ hrow (by omega)]
            rw [if_neg hrne]
            exact hget''
          · rw [if_neg hk]
            exact ⟨A'', hA'', hget''⟩
  · simp only
    rw [assocSet_keys, assocSet_keys]
    exact hWF₁.2.1
  · simp only
    rw [assocGet_isSome_set, assocGet_isSome_set]
    exact hWF₁.2.2.1
  · intro p hp
    simp only at hp
    rcases mem_assocSet hp with ⟨hp1, hp2⟩ | ⟨hp', hp1⟩
    · -- the destination archetype
      obtain ⟨pk, pA⟩ := p
      simp only at hp1 hp2
      subst hp1
      rw [hp2]
      have hd₂idv : dst₂.id = r.archetype_id.erase c := by
        rw [hd₂id, hidD]
      refine ⟨hd₂idv, ?_, ?_, ?_, ?_, ?_, ?_⟩
      · rw [hd₂map]; exact hndD
      · intro c' hc'
        obtain ⟨d, hd, hdid⟩ := hcovD c' hc'
        have : c' ∈ dst₂.components.map (fun t => t.id) := by
          rw [hd₂map]
          exact List.mem_map.mpr ⟨d, hd, hdid⟩
        obtain ⟨d', hd', hdid'⟩ := List.mem_map.mp this
        exact ⟨d', hd', hdid'⟩
      · intro t ht
        have : t.id ∈ D.components.map (fun u => u.id) := by
          rw [← hd₂map]
          exact List.mem_map_of_mem _ ht
        obtain ⟨u, hu, huid⟩ := List.mem_map.mp this
        rw [← huid]
        exact hmemkD u hu
      · intro t ht
        have hlen2 : dst₂.entities.length = D.entities.length + 1 := by
          rw [hd₂ents, List.length_append]
          rfl
        rw [hlen2]
        have htin : t.id ∈ D.compIds := by
          have : t.id ∈ dst₂.components.map (fun u => u.id) :=
            List.mem_map_of_mem _ ht
          rw [hd₂map] at this
          exact this
        obtain ⟨d, hd, hdWF⟩ := hd₂in t.id htin
        have hget : dst₂.getStorage t.id = some t := by
          apply getStorage_of_mem_nodup
          · rw [hd₂map]; exact hndD
          · exact ht
        have : t = d := Option.some.inj (hget.symm.trans hd)
        rw [this]
        exact hdWF
      · intro i hi
        have hlen2 : dst₂.entities.length = D.entities.length + 1 := by
          rw [hd₂ents, List.length_append]
          rfl
        rw [hlen2] at hi
        rw [hd₂ents]
        by_cases him : i < D.entities.length
        · rw [getD_append_lt _ _ _ _ him]
          have hei := hentD i him
          have hne_e : ¬ (D.entities.getD i 0 = e) := by
            intro hcon
            rw [hcon] at hei
            have heq := records_functional hrec₁ hei
            have haa := congrArg EntityRecord.archetype_id heq
            simp only at haa
            exact hknedk haa
          have hne_last : ¬ (D.entities.getD i 0 =
              A₁.entities.getD (A₁.entities.length - 1) 0) := by
            intro hcon
            rw [hcon] at hei
            have heq := records_functional (hent₁ (A₁.entities.length - 1) (by omega)) hei
            have haa := congrArg EntityRecord.archetype_id heq
            simp only at haa
            exact hknedk haa
          show (if D.entities.getD i 0 = e then _ else _) = _
          rw [if_neg hne_e, if_neg hne_last]
          exact hei
        · have hieq : i = D.entities.length := by omega
          subst hieq
          rw [getD_concat_self]
          show (if e = e then _ else _) = _
          rw [if_pos rfl]
      · intro q hq
        have hq' : q ∈ D.edges := by
          rw [hd₂edges] at hq
          exact hq
        obtain ⟨hso, heq⟩ := hedgD q hq'
        refine ⟨?_, heq⟩
        simp only
        rw [assocGet_isSome_set, assocGet_isSome_set]
        exact hso
    · rcases mem_assocSet hp' with ⟨hp1', hp2'⟩ | ⟨hpmem, hp1''⟩
      · -- the source archetype
        obtain ⟨pk, pA⟩ := p
        simp only at hp1' hp2' hp1
        subst hp1'
        rw [hp2']
        have hs₂map' : src₂.components.map (fun t => t.id) =
            A₁.components.map (fun t => t.id) := by
          rw [hs₂map]
          exact Archetype.setStorage_compIds hs'idc
        have hs₂idv : src₂.id = r.archetype_id := by
          rw [hs₂id, Archetype.setStorage_id, hid₁]
        refine ⟨hs₂idv, ?_, ?_, ?_, ?_, ?_, ?_⟩
        · rw [hs₂map']; exact hnd₁
        · intro c' hc'
          obtain ⟨u, hu, huid⟩ := hcov₁ c' hc'
          have : c' ∈ src₂.components.map (fun t => t.id) := by
            rw [hs₂map']
            exact List.mem_map.mpr ⟨u, hu, huid⟩
          obtain ⟨u', hu', huid'⟩ := List.mem_map.mp this
          exact ⟨u', hu', huid'⟩
        · intro t ht
          have : t.id ∈ A₁.components.map (fun u => u.id) := by
            rw [← hs₂map']
            exact List.mem_map_of_mem _ ht
          obtain ⟨u, hu, huid⟩ := List.mem_map.mp this
          rw [← huid]
          exact hmemk₁ u hu
        · intro t ht
          have hlen2 : src₂.entities.length = A₁.entities.length - 1 := by
            rw [hs₂ents, Archetype.setStorage_entities]
            exact listSwapRemove_length _ _ hrow
          rw [hlen2]
          have hget : src₂.getStorage t.id = some t := by
            apply getStorage_of_mem_nodup
            · rw [hs₂map']; exact hnd₁
            · exact ht
          by_cases htin : t.id ∈ D.compIds
          · obtain ⟨u, hu, huWF⟩ := hs₂in t.id htin
            have : t = u := Option.some.inj (hget.symm.trans hu)
            rw [this]
            exact huWF
          · have hunch := hs₂unch t.id htin
            rw [hunch] at hget
            have htk : t.id ∈ r.archetype_id := by
              have : t.id ∈ A₁.components.map (fun u => u.id) := by
                rw [← hs₂map']
                exact List.mem_map_of_mem _ ht
              obtain ⟨u, hu, huid⟩ := List.mem_map.mp this
              rw [← huid]
              exact hmemk₁ u hu
            by_cases htc : t.id = c
            · rw [htc] at hget
              rw [Archetype.getStorage_setStorage_self hs'idc
                (by rw [hget_s]; rfl)] at hget
              have : t = s' := (Option.some.inj hget).symm
              rw [this]
              exact hs'WF
            · exfalso
              apply htin
              have htdk : t.id ∈ r.archetype_id.erase c :=
                Finset.mem_erase.mpr ⟨htc, htk⟩
              obtain ⟨u, hu, huid⟩ := hcovD t.id htdk
              exact List.mem_map.mpr ⟨u, hu, huid⟩
        · intro i hi
          have hlen2 : src₂.entities.length = A₁.entities.length - 1 := by
            rw [hs₂ents, Archetype.setStorage_entities]
            exact listSwapRemove_length _ _ hrow
          rw [hlen2] at hi
          rw [hs₂ents, Archetype.setStorage_entities]
          rw [listSwapRemove_getD _ _ _ _ hrow (by omega)]
          by_cases hir : i = r.archetype_row
          · rw [if_pos hir]
            have hlast_ne_e : ¬ (A₁.entities.getD (A₁.entities.length - 1) 0 = e) := by
              intro hcon
              have hx := hent₁ (A₁.entities.length - 1) (by omega)
              rw [hcon] at hx
              have heq := records_functional hrec₁ hx
              have hrr := congrArg EntityRecord.archetype_row heq
              simp only at hrr
              omega
            show (if A₁.entities.getD (A₁.entities.length - 1) 0 = e then _ else _) = _
            rw [if_neg hlast_ne_e, if_pos rfl, hir]
          · rw [if_neg hir]
            have hei := hent₁ i (by omega)
            have hne_e : ¬ (A₁.entities.getD i 0 = e) := by
              intro hcon
              rw [hcon] at hei
              have heq := records_functional hrec₁ hei
              have hrr := congrArg EntityRecord.archetype_row heq
              simp only at hrr
              omega
            have hne_last : ¬ (A₁.entities.getD i 0 =
                A₁.entities.getD (A₁.entities.length - 1) 0) := by
              intro hcon
              rw [hcon] at hei
              have heq := records_functional (hent₁ (A₁.entities.length - 1) (by omega)) hei
              have hrr := congrArg EntityRecord.archetype_row heq
              simp only at hrr
              omega
            show (if A₁.entities.getD i 0 = e then _ else _) = _
            rw [if_neg hne_e, if_neg hne_last]
            exact hei
        · intro q hq
          have hq' : q ∈ A₁.edges := by
            rw [hs₂edges, Archetype.setStorage_edges] at hq
            exact hq
          obtain ⟨hso, heq⟩ := hedg₁ q hq'
          refine ⟨?_, heq⟩
          simp only
          rw [assocGet_isSome_set, assocGet_isSome_set]
          exact hso
      · -- untouched archetypes
        obtain ⟨hid', hnd', hcov', hmemk', hlen', hent', hedg'⟩ := hWF₁.2.2.2 p hpmem
        refine ⟨hid', hnd', hcov', hmemk', hlen', ?_, ?_⟩
        · intro i hi
          have hei := hent' i hi
          have hne_e : ¬ (p.2.entities.getD i 0 = e) := by
            intro hcon
            rw [hcon] at hei
            have heq := records_functional hrec₁ hei
            have haa := congrArg EntityRecord.archetype_id heq
            simp only at haa
            exact hp1'' haa.symm
          have hne_last : ¬ (p.2.entities.getD i 0 =
              A₁.entities.getD (A₁.entities.length - 1) 0) := by
            intro hcon
            rw [hcon] at hei
            have heq := records_functional (hent₁ (A₁.entities.length - 1) (by omega)) hei
            have haa := congrArg EntityRecord.archetype_id heq
            simp only at haa
            exact hp1'' haa.symm
          show (if p.2.entities.getD i 0 = e then _ else _) = _
          rw [if_neg hne_e, if_neg hne_last]
          exact hei
        · intro q hq
          obtain ⟨hso, heq⟩ := hedg' q hq
          refine ⟨?_, heq⟩
          simp only
          rw [assocGet_isSome_set, assocGet_isSome_set]
          exact hso

/-- Inversion for `World::has_component`: a `some` answer is `false` for a
dead entity, and otherwise records the archetype lookup and the registration
bound together with the bit test. -/
theorem hasComponent_some_inv {w : World} {c : Nat} {e : Entity} {b : Bool}
    (h : w.hasComponent c e = some b) :
    (w.records e = none ∧ b = false) ∨
    (∃ r A, w.records e = some r ∧ assocGet w.table r.archetype_id = some A ∧
      c < w.numComps ∧ b = decide (c ∈ A.id)) := by
  unfold World.hasComponent at h
  cases hr : w.records e with
  | none =>
    rw [hr] at h
    simp only [] at h
    exact Or.inl ⟨rfl, (Option.some.inj h).symm⟩
  | some r =>
    rw [hr] at h
    simp only [] at h
    cases hA : assocGet w.table r.archetype_id with
    | none =>
      rw [hA] at h
      exact absurd h (by simp)
    | some A =>
      rw [hA] at h
      simp only [] at h
      unfold World.getId at h
      by_cases hc : c < w.numComps
      · rw [if_pos hc] at h
        simp only [] at h
        exact Or.inr ⟨r, A, rfl, hA, hc, (Option.some.inj h).symm⟩
      · rw [if_neg hc] at h
        exact absurd h (by simp)

/-- `World::add_component` preserves the world invariant whenever it returns. -/
theorem addComponent_WF {w : World} (hw : WF w) {c : Nat} {e : Entity} {v : Value}
    {w' : World} (h : w.addComponent c e v = some w') : WF w' := by
  cases hHas : w.hasComponent c e with
  | none =>
    unfold World.addComponent at h
    rw [hHas] at h
    exact absurd h (by simp)
  | some b =>
    cases b with
    | true =>
      unfold World.addComponent at h
      rw [hHas] at h
      simp only [] at h
      rw [← Option.some.inj h]
      exact hw
    | false =>
      rcases hasComponent_some_inv hHas with ⟨hdead, _⟩ | ⟨r, A, hr, hA, hc, hb⟩
      · unfold World.addComponent at h
        rw [hHas] at h
        simp only [] at h
        unfold World.getId at h
        by_cases hcn : c < w.numComps
        · rw [if_pos hcn] at h
          simp only [] at h
          rw [hdead] at h
          exact absurd h (by simp)
        · rw [if_neg hcn] at h
          exact absurd h (by simp)
      · have hcnot : c ∉ r.archetype_id := by
          have hAid : A.id = r.archetype_id := (hw.lookup hA).1
          intro hcon
          have : decide (c ∈ A.id) = true := decide_eq_true (hAid ▸ hcon)
          rw [← hb] at this
          exact Bool.false_ne_true this
        obtain ⟨w'', m', heq, hWF', _⟩ := addComponent_spec hw hr hc hcnot v
        rw [heq] at h
        rw [← Option.some.inj h]
        exact hWF'

/-- `World::remove_component` preserves the world invariant whenever it
returns. -/
theorem removeComponent_WF {w : World} (hw : WF w) {c : Nat} {e : Entity}
    {w' : World} (h : w.removeComponent c e = some w') : WF w' := by
  cases hHas : w.hasComponent c e with
  | none =>
    unfold World.removeComponent at h
    rw [hHas] at h
    exact absurd h (by simp)
  | some b =>
    cases b with
    | false =>
      unfold World.removeComponent at h
      rw [hHas] at h
      simp only [] at h
      rw [← Option.some.inj h]
      exact hw
    | true =>
      rcases hasComponent_some_inv hHas with ⟨_, hfalse⟩ | ⟨r, A, hr, hA, hc, hb⟩
      · exact absurd hfalse (by simp)
      · have hcin : c ∈ r.archetype_id := by
          have hAid : A.id = r.archetype_id := (hw.lookup hA).1
          have := of_decide_eq_true hb.symm
          exact hAid ▸ this
        obtain ⟨w'', m', heq, hWF', _⟩ := removeComponent_spec hw hr hc hcin
        rw [heq] at h
        rw [← Option.some.inj h]
        exact hWF'

/-- Every single structural operation preserves the invariant. -/
theorem stepOp_WF {w : World} (hw : WF w) {op : Op} {w' : World}
    (h : stepOp w op = some w') : WF w' := by
  cases op with
  | create =>
    unfold stepOp at h
    cases hc : w.createEntity with
    | none => rw [hc] at h; exact absurd h (by simp)
    | some p =>
      rw [hc] at h
      obtain ⟨w₁, e₁⟩ := p
      simp only [Option.map] at h
      rw [← Option.some.inj h]
      exact createEntity_WF hw hc
  | delete e => exact deleteEntity_WF hw h
  | add c e v => exact addComponent_WF hw h
  | remove c e => exact removeComponent_WF hw h

/-- Running any sequence of structural operations preserves the invariant. -/
theorem runOps_WF {ops : List Op} : ∀ {w : World}, WF w → ∀ {w' : World},
    runOps w ops = some w' → WF w' := by
  induction ops with
  | nil =>
    intro w hw w' h
    rw [← Option.some.inj h]
    exact hw
  | cons op ops ih =>
    intro w hw w' h
    unfold runOps at h
    rw [List.foldlM_cons] at h
    cases hstep : stepOp w op with
    | none => rw [hstep] at h; exact absurd h (by simp)
    | some w₁ =>
      rw [hstep] at h
      exact ih (stepOp_WF hw hstep) h

/-- Membership in a `foldl insert` accumulation of a list of ids. -/
theorem mem_foldl_insert (l : List ComponentID) (s : ArchetypeID) (x : ComponentID) :
    x ∈ l.foldl (fun t c => insert c t) s ↔ x ∈ l ∨ x ∈ s := by
  induction l generalizing s with
  | nil => simp
  | cons a l ih =>
    rw [List.foldl_cons, ih]
    simp [Finset.mem_insert]
    tauto

/-- Under the invariant, the entity chunk of an archetype holds exactly the
entities whose directory record names that archetype. -/
theorem chunkItems_mem_iff {w : World} (hw : WF w) {k : ArchetypeID} {A : Archetype}
    (hA : assocGet w.table k = some A) (e : Entity) :
    e ∈ chunkItems A ↔ ∃ r, w.records e = some r ∧ r.archetype_id = k := by
  obtain ⟨hid, hnd, hcov, hmemk, hlen, hent, hedg⟩ := hw.lookup hA
  constructor
  · intro he
    obtain ⟨i, hi, hie⟩ := List.mem_map.mp he
    have hir : i < A.entities.length := List.mem_range.mp hi
    have hx := hent i hir
    rw [hie] at hx
    exact ⟨_, hx, rfl⟩
  · rintro ⟨r, hr, hrk⟩
    obtain ⟨hlt, A', hA', hget⟩ := hw.1 e r hr
    rw [hrk] at hA'
    have hAA : A' = A := Option.some.inj (hA'.symm.trans hA)
    subst hAA
    have hrl : r.archetype_row < A'.entities.length := (List.get?_eq_some.mp hget).1
    apply List.mem_map.mpr
    refine ⟨r.archetype_row, List.mem_range.mpr hrl, ?_⟩
    have hd := get?_eq_some_getD 0 hrl (l := A'.entities)
    rw [hget] at hd
    exact (Option.some.inj hd).symm
  
/-- Under the invariant, an archetype's entity chunk lists no entity twice. -/
theorem chunkItems_nodup {w : World} (hw : WF w) {k : ArchetypeID} {A : Archetype}
    (hA : assocGet w.table k = some A) : (chunkItems A).Nodup := by
  obtain ⟨hid, hnd, hcov, hmemk, hlen, hent, hedg⟩ := hw.lookup hA
  unfold chunkItems
  apply List.Nodup.map_on ?_ (List.nodup_range _)
  intro i hi j hj hij
  have hi' := hent i (List.mem_range.mp hi)
  have hj' := hent j (List.mem_range.mp hj)
  rw [hij] at hi'
  have heq := records_functional hi' hj'
  have := congrArg EntityRecord.archetype_row heq
  simpa using this

/-- Iterating a nodup list of resolvable archetype ids yields exactly the
entities recorded in those archetypes, each once. -/
theorem bundleIter_aux {w : World} (hw : WF w) : ∀ {ids : List ArchetypeID},
    (∀ a ∈ ids, (assocGet w.table a).isSome = true) → ids.Nodup →
    ∃ items, bundleIterEntities w ids = some items ∧ items.Nodup ∧
      (∀ e, e ∈ items ↔ ∃ r, w.records e = some r ∧ r.archetype_id ∈ ids) := by
  intro ids
  induction ids with
  | nil =>
    intro _ _
    refine ⟨[], rfl, List.nodup_nil, ?_⟩
    intro e
    simp
  | cons a rest ih =>
    intro hsome hnd
    obtain ⟨A, hA⟩ := Option.isSome_iff_exists.mp (hsome a (List.mem_cons_self a rest))
    obtain ⟨items', hrun', hnd', hmem'⟩ :=
      ih (fun b hb => hsome b (List.mem_cons_of_mem a hb)) (List.Nodup.of_cons hnd)
    refine ⟨chunkItems A ++ items', ?_, ?_, ?_⟩
    · unfold bundleIterEntities
      rw [hA]
      simp only []
      rw [hrun']
      rfl
    · apply List.Nodup.append (chunkItems_nodup hw hA) hnd'
      intro e he he'
      obtain ⟨r, hr, hrk⟩ := (chunkItems_mem_iff hw hA e).mp he
      obtain ⟨r2, hr2, hrk2⟩ := (hmem' e).mp he'
      have heq := records_functional hr hr2
      rw [← heq, hrk] at hrk2
      exact (List.nodup_cons.mp hnd).1 hrk2
    · intro e
      rw [List.mem_append]
      constructor
      · rintro (he | he)
        · obtain ⟨r, hr, hrk⟩ := (chunkItems_mem_iff hw hA e).mp he
          exact ⟨r, hr, by rw [hrk]; exact List.mem_cons_self a rest⟩
        · obtain ⟨r, hr, hrk⟩ := (hmem' e).mp he
          exact ⟨r, hr, List.mem_cons_of_mem a hrk⟩
      · rintro ⟨r, hr, hrk⟩
        rcases List.mem_cons.mp hrk with h | h
        · exact Or.inl ((chunkItems_mem_iff hw hA e).mpr ⟨r, hr, h⟩)
        · exact Or.inr ((hmem' e).mpr ⟨r, hr, h⟩)

/-- C6: `flag_modified` on a live entity whose held column was never enabled
for tracking does not succeed: in `w1add` entity `0` holds component `0`
(`has_component` answers `true`), yet `FlagModifiedCommand::execute` hits
`debug_assert!(storage.is_tracked())` / `unwrap_unchecked` on the absent
tracker and panics (modelled `none`) instead of lazily creating the tracker. -/
theorem claim_C6 : w1add.hasComponent 0 0 = some true ∧
    w1add.flagModified 0 0 = none := ⟨rfl, rfl⟩

/-- C1: after any sequence of create/delete/add/remove operations from a
fresh world, every live entity's directory record names an archetype and row
such that that archetype's entity list holds the entity at that row
(I1/I2: `archetype[dir[e].id].entities[dir[e].row] == e`). -/
theorem claim_C1 {n : Nat} {ops : List Op} {w' : World}
    (h : runOps (initWorld n) ops = some w') {e : Entity} {r : EntityRecord}
    (hrec : w'.records e = some r) :
    ∃ A, assocGet w'.table r.archetype_id = some A ∧
      A.entities.get? r.archetype_row = some e := by
  obtain ⟨hlt, A, hA, hget⟩ := (runOps_WF (initWorld_WF n) h).1 e r hrec
  exact ⟨A, hA, hget⟩

theorem claim_C1_witness :
    ∃ A, assocGet w1create.table (∅ : ArchetypeID) = some A ∧
      A.entities.get? 0 = some 0 := by
  have h : runOps (initWorld 1) [Op.create] = some w1create := rfl
  exact claim_C1 h (rfl : w1create.records 0 = some ⟨∅, 0⟩)

/-- C2: the filter's match test holds iff the archetype's component-set
contains every id of the `and` list and no id of the `not` list (superset of
the include set, disjoint from the exclude set); the `track` list plays no
role in the outcome of the test. -/
theorem claim_C2 (andL notL trackL trackL' : List ComponentID) (A : Archetype) :
    ((buildFilter andL notL trackL).matchTest A = true ↔
      ((∀ c ∈ andL, c ∈ A.id) ∧ ∀ c ∈ notL, c ∉ A.id)) ∧
    (buildFilter andL notL trackL).matchTest A =
      (buildFilter andL notL trackL').matchTest A := by
  constructor
  · unfold Filter.matchTest buildFilter
    simp only []
    simp only [Bool.and_eq_true, decide_eq_true_eq]
    constructor
    · rintro ⟨hsub, hdisj⟩
      constructor
      · intro c hc
        exact hsub ((mem_foldl_insert andL ∅ c).mpr (Or.inl hc))
      · intro c hc hcA
        exact (Finset.disjoint_right.mp hdisj
          ((mem_foldl_insert notL ∅ c).mpr (Or.inl hc))) hcA
    · rintro ⟨hand, hnot⟩
      constructor
      · intro c hc
        rcases (mem_foldl_insert andL ∅ c).mp hc with h | h
        · exact hand c h
        · exact absurd h (Finset.not_mem_empty c)
      · rw [Finset.disjoint_right]
        intro c hc
        rcases (mem_foldl_insert notL ∅ c).mp hc with h | h
        · exact hnot c h
        · exact absurd h (Finset.not_mem_empty c)
  · rfl

/-- C4: a tracked-read or tracked-write fetch of an in-bounds row of a
tracked column yields an item, the same item for both specifiers, and the
item is `Modified` iff the row's `modified` tick is at least the tracker's
`last_read` tick at fetch time. -/
theorem claim_C4 {s : ComponentStorage} {i : Nat} {t : ChangeTracking}
    (ht : s.tracker = some t) {g : TrackingInfo}
    (hi : t.info.get? i = some g) {v : Value}
    (hv : s.components.get? i = some v) :
    ∃ item, fetchTrackedRead s i = some item ∧
      fetchTrackedWrite s i = some item ∧
      (item.is_modified = true ↔ t.last_read ≤ g.modified) := by
  unfold fetchTrackedRead fetchTrackedWrite
  rw [ht]
  simp only []
  rw [hi, hv]
  simp only []
  refine ⟨_, rfl, rfl, ?_⟩
  by_cases h : g.modified ≥ t.last_read
  · rw [if_pos h]
    exact ⟨fun _ => h, fun _ => rfl⟩
  · rw [if_neg h]
    exact ⟨fun hcon => absurd hcon (by simp [Tracked.is_modified]),
           fun hle => absurd hle h⟩

theorem claim_C4_witness :
    ∃ item, fetchTrackedRead ⟨0, [7], some ⟨[⟨3⟩], 2, 3⟩⟩ 0 = some item ∧
      fetchTrackedWrite ⟨0, [7], some ⟨[⟨3⟩], 2, 3⟩⟩ 0 = some item ∧
      (item.is_modified = true ↔ (2 : Nat) ≤ 3) :=
  claim_C4 (s := ⟨0, [7], some ⟨[⟨3⟩], 2, 3⟩⟩) (t := ⟨[⟨3⟩], 2, 3⟩)
    (g := ⟨3⟩) (v := 7) (i := 0) rfl rfl rfl

/-- C5 (refuted by the source): `ComponentStorage::push` hard-codes
`let tick = 0;` (with a `TODO` noting the world tick is needed), so on a
tracked column it appends a tracking entry with `modified = 0` and sets
`last_write` to `0` — a constant, not the current world tick.  The same
constant is used on the transfer-in path (`move_unchecked`). -/
theorem claim_C5 (s : ComponentStorage) (tr : ChangeTracking)
    (ht : s.tracker = some tr) (v : Value) :
    ∃ tr', (s.push v).tracker = some tr' ∧
      tr'.info = tr.info ++ [⟨0⟩] ∧ tr'.last_write = 0 := by
  unfold ComponentStorage.push
  rw [ht]
  exact ⟨_, rfl, rfl, rfl⟩

theorem claim_C5_witness :
    ∃ tr', ((⟨0, [], some ⟨[], 0, 5⟩⟩ : ComponentStorage).push 1).tracker = some tr' ∧
      tr'.info = [] ++ [⟨0⟩] ∧ tr'.last_write = 0 :=
  claim_C5 ⟨0, [], some ⟨[], 0, 5⟩⟩ ⟨[], 0, 5⟩ rfl 1

/-- C7 (refuted by the source): a query built between an archetype's creation
and the next queue clearing caches the archetype once at build time and then
appends it again from the new-archetype queue on sync, so the cached list
holds `{0}` twice — `update_archetype_ids` appends without deduplication. -/
theorem claim_C7 : c7ids = some [insert 0 ∅, insert 0 ∅] := rfl

/-- C3: when a query's cached archetype list is in sync with the world
(every cached id resolves to an archetype matching the filter, every
matching archetype of the table is cached, and no id is cached twice),
iterating yields exactly the entities resident in matching archetypes —
every such entity once, no entity of a non-matching archetype, none twice. -/
theorem claim_C3 {w : World} (hw : WF w) (q : Query)
    (h1 : ∀ a ∈ q.archetype_ids, (assocGet w.table a).map q.filter.matchTest = some true)
    (h2 : ∀ p ∈ w.table, q.filter.matchTest p.2 = true → p.1 ∈ q.archetype_ids)
    (h3 : q.archetype_ids.Nodup) :
    ∃ items, bundleIterEntities w q.archetype_ids = some items ∧ items.Nodup ∧
      ∀ e, e ∈ items ↔ ∃ r A, w.records e = some r ∧
        assocGet w.table r.archetype_id = some A ∧ q.filter.matchTest A = true := by
  have hsome : ∀ a ∈ q.archetype_ids, (assocGet w.table a).isSome = true := by
    intro a ha
    have hx := h1 a ha
    cases hA : assocGet w.table a with
    | none => rw [hA] at hx; exact absurd hx (by simp)
    | some A => rfl
  obtain ⟨items, hrun, hnd, hmem⟩ := bundleIter_aux hw hsome h3
  refine ⟨items, hrun, hnd, ?_⟩
  intro e
  rw [hmem e]
  constructor
  · rintro ⟨r, hr, hrk⟩
    have hx := h1 _ hrk
    cases hA : assocGet w.table r.archetype_id with
    | none => rw [hA] at hx; exact absurd hx (by simp)
    | some A =>
      rw [hA] at hx
      exact ⟨r, A, hr, hA, Option.some.inj hx⟩
  · rintro ⟨r, A, hr, hA, hmatch⟩
    exact ⟨r, hr, h2 _ (mem_of_assocGet_eq_some hA) hmatch⟩

theorem claim_C3_witness :
    ∃ items, bundleIterEntities w3 [insert 0 ∅] = some items ∧ items.Nodup ∧
      ∀ e, e ∈ items ↔ ∃ r A, w3.records e = some r ∧
        assocGet w3.table r.archetype_id = some A ∧
        (buildFilter [0] [] []).matchTest A = true := by
  have h : runOps (initWorld 1) [Op.create, Op.add 0 0 5, Op.create] = some w3 := rfl
  exact claim_C3 (runOps_WF (initWorld_WF 1) h)
    ⟨buildFilter [0] [] [], [insert 0 ∅]⟩ (by decide) (by decide) (by decide)

/-- C8 (corrected): `delete_entity` on a non-alive entity is a silent no-op
and deletion is idempotent; `remove_component` is a silent no-op on a dead
entity and on a live entity that does not hold the (registered) component;
but — contrary to the claim — `remove_component` with an *unregistered*
component type on a live entity panics in `ComponentManager::get_id`
(a documented `# Panics`), it is not a silent no-op. -/
theorem claim_C8 {w : World} (hw : WF w) (c : Nat) (e : Entity) :
    (w.alive e = false → w.deleteEntity e = some w) ∧
    (∀ w', w.deleteEntity e = some w' → w'.deleteEntity e = some w') ∧
    (w.records e = none → w.removeComponent c e = some w) ∧
    (∀ r, w.records e = some r → c < w.numComps → c ∉ r.archetype_id →
      w.removeComponent c e = some w) ∧
    (∀ r, w.records e = some r → w.numComps ≤ c → w.removeComponent c e = none) := by
  refine ⟨?_, ?_, ?_, ?_, ?_⟩
  · intro h
    unfold World.deleteEntity
    rw [h]
    rfl
  · intro w' h
    unfold World.deleteEntity at h ⊢
    by_cases halive : w.alive e = true
    · rw [if_pos halive] at h
      cases hm : w.managerDeleteEntity e with
      | none => rw [hm] at h; exact absurd h (by simp)
      | some w₁ =>
        rw [hm] at h
        simp only [] at h
        have hdead : w'.alive e = false := by
          rw [← Option.some.inj h]
          show (Option.isSome (if e = e then none else w₁.records e)) = false
          rw [if_pos rfl]
          rfl
        rw [hdead]
        rfl
    · rw [if_neg halive] at h
      rw [← Option.some.inj h]
      rw [if_neg halive]
  · intro h
    have hHas : w.hasComponent c e = some false := by
      unfold World.hasComponent
      rw [h]
    unfold World.removeComponent
    rw [hHas]
  · intro r hr hcreg hcnot
    obtain ⟨A₀, hA₀, _, _⟩ := hw.record_loc hr
    have hid₀ : A₀.id = r.archetype_id := (hw.lookup hA₀).1
    have hHas : w.hasComponent c e = some false := by
      unfold World.hasComponent World.getId
      rw [hr]
      simp only []
      rw [hA₀]
      simp only []
      rw [if_pos hcreg]
      simp only []
      rw [hid₀]
      rw [decide_eq_false (by exact hcnot)]
    unfold World.removeComponent
    rw [hHas]
  · intro r hr hge
    obtain ⟨A₀, hA₀, _, _⟩ := hw.record_loc hr
    have hHas : w.hasComponent c e = none := by
      unfold World.hasComponent World.getId
      rw [hr]
      simp only []
      rw [hA₀]
      simp only []
      rw [if_neg (by omega)]
    unfold World.removeComponent
    rw [hHas]

theorem claim_C8_counterexample :
    w0create.alive 0 = true ∧ w0create.removeComponent 0 0 = none := ⟨rfl, rfl⟩

theorem claim_C8_witness :
    (w0create.alive 5 = false → w0create.deleteEntity 5 = some w0create) ∧
    (∀ w', w0create.deleteEntity 5 = some w' → w'.deleteEntity 5 = some w') ∧
    (w0create.records 5 = none → w0create.removeComponent 0 5 = some w0create) ∧
    (∀ r, w0create.records 5 = some r → 0 < w0create.numComps → 0 ∉ r.archetype_id →
      w0create.removeComponent 0 5 = some w0create) ∧
    (∀ r, w0create.records 5 = some r → w0create.numComps ≤ 0 →
      w0create.removeComponent 0 5 = none) := by
  have h : runOps (initWorld 0) [Op.create] = some w0create := rfl
  exact claim_C8 (runOps_WF (initWorld_WF 0) h) 0 5

/-- C9: adding a component a live entity lacks and then removing it again
moves the entity to an archetype whose component-set equals the original
record's component-set (`erase c (insert c s) = s`). -/
theorem claim_C9 {w : World} (hw : WF w) {e : Entity} {r : EntityRecord}
    (hrec : w.records e = some r) {c : Nat} (hcreg : c < w.numComps)
    (hcnot : c ∉ r.archetype_id) (v : Value) :
    ∃ w₁ w₂ r₂, w.addComponent c e v = some w₁ ∧
      w₁.removeComponent c e = some w₂ ∧
      w₂.records e = some r₂ ∧ r₂.archetype_id = r.archetype_id := by
  obtain ⟨w₁, m₁, hadd, hWF₁, hrec₁, hnum₁, hnext₁, htick₁⟩ :=
    addComponent_spec hw hrec hcreg hcnot v
  have hcreg₁ : c < w₁.numComps := by rw [hnum₁]; exact hcreg
  obtain ⟨w₂, m₂, hrem, hWF₂, hrec₂, _⟩ :=
    removeComponent_spec hWF₁ hrec₁ hcreg₁ (Finset.mem_insert_self c r.archetype_id)
  refine ⟨w₁, w₂, _, hadd, hrem, hrec₂, ?_⟩
  show (insert c r.archetype_id).erase c = r.archetype_id
  exact Finset.erase_insert hcnot

theorem claim_C9_witness :
    ∃ w₁ w₂ r₂, w1create.addComponent 0 0 7 = some w₁ ∧
      w₁.removeComponent 0 0 = some w₂ ∧
      w₂.records 0 = some r₂ ∧ r₂.archetype_id = (∅ : ArchetypeID) := by
  have h : runOps (initWorld 1) [Op.create] = some w1create := rfl
  exact claim_C9 (runOps_WF (initWorld_WF 1) h)
    (rfl : w1create.records 0 = some ⟨∅, 0⟩) (by decide) (by decide) 7

/-- C10: `add_component` on a live entity that already holds the component is
a complete no-op: `has_component` answers `true` and the method returns
before touching anything, so the world value (stored component included) is
returned unchanged. -/
theorem claim_C10 {w : World} (hw : WF w) {e : Entity} {r : EntityRecord}
    (hrec : w.records e = some r) {c : Nat} (hcreg : c < w.numComps)
    (hcin : c ∈ r.archetype_id) (v : Value) :
    w.addComponent c e v = some w := by
  obtain ⟨A₀, hA₀, _, _⟩ := hw.record_loc hrec
  have hid₀ : A₀.id = r.archetype_id := (hw.lookup hA₀).1
  have hHas : w.hasComponent c e = some true := by
    unfold World.hasComponent World.getId
    rw [hrec]
    simp only []
    rw [hA₀]
    simp only []
    rw [if_pos hcreg]
    simp only []
    rw [hid₀]
    rw [decide_eq_true hcin]
  unfold World.addComponent
  rw [hHas]

theorem claim_C10_witness : w1add.addComponent 0 0 7 = some w1add := by
  have h : runOps (initWorld 1) [Op.create, Op.add 0 0 42] = some w1add := rfl
  exact claim_C10 (runOps_WF (initWorld_WF 1) h)
    (by decide : w1add.records 0 = some ⟨insert 0 ∅, 0⟩) (by decide) (by decide) 7
